import Mathlib

/-!
Verification of the cc2538-hal cryptographic accelerator driver.

This file gives a shallow embedding, in Lean, of the crypto subsystem of the
cc2538-hal repository: the PKA (big-number / elliptic-curve) accelerator
driver (src/crypto/bignum.rs, src/crypto/ecc.rs, the PkaRam helper in
src/crypto/mod.rs), the AES engine driver in CTR and CCM modes
(src/crypto/aes_engine/), and the SHA-256 streaming driver
(src/crypto/sha2.rs).

Machine integers are modelled as Nat with explicit reductions modulo 2^w
where the source relies on wrapping; fallible Rust code is modelled with an
explicit outcome type distinguishing normal returns, typed errors and
panics; the memory-mapped hardware is modelled as explicit state threaded
through each operation, with the hardware's own computation (what it writes
back after the run bit clears) supplied as an explicit input to each call.
-/

set_option maxRecDepth 10000
set_option linter.unusedVariables false

namespace Cc2538

/-- Errors of the crypto driver (CryptoError in src/crypto/mod.rs). -/
inductive CryptoError where
  | PkaBusy
  | NoSolution
  | PkaFailure
deriving DecidableEq, Repr

/-- Outcome of a fallible driver call: a Rust panic (failed assertion,
arithmetic overflow, out-of-bounds slice), a typed error, or a normal
return. -/
inductive Res (α : Type) where
  | fault
  | err (e : CryptoError)
  | ok (a : α)
deriving DecidableEq, Repr

/-! ## PKA RAM (PkaRam in src/crypto/mod.rs)

The 2 KiB scratch region local to the PKA accelerator.  It is addressed by
byte offsets; words are written at offsets `offset + 4*i`.  We model its
contents as a function from byte addresses to the 32-bit word stored
there. -/

/-- Size in bytes of the PKA RAM region (PkaRam::PKA_RAM_SIZE = 0x800). -/
def pkaRamSize : Nat := 0x800

/-- Store the words of `data` at byte offsets `offset + 4*i` of the
region. -/
def storeWords (mem : Nat → Nat) (offset : Nat) (data : List Nat) : Nat → Nat :=
  match data with
  | [] => mem
  | d :: rest => storeWords (Function.update mem offset d) (offset + 4) rest

/-- PkaRam::write_slice: asserts `offset + data.len()*4 < PKA_RAM_SIZE`,
writes each word by direct memory access, and returns `4 * data.len()`.
`none` models the failed assertion (a panic). -/
def PkaRam.write_slice (data : List Nat) (offset : Nat) (mem : Nat → Nat) :
    Option ((Nat → Nat) × Nat) :=
  if offset + data.length * 4 < pkaRamSize then
    some (storeWords mem offset data, 4 * data.length)
  else
    none

/-- PkaRam::read_slice: asserts the same bound and reads `data.len()` words
starting at `offset`, returning the destination slice contents. -/
def PkaRam.read_slice (len : Nat) (offset : Nat) (mem : Nat → Nat) :
    Option (List Nat) :=
  if offset + len * 4 < pkaRamSize then
    some ((List.range len).map fun i => mem (offset + 4 * i))
  else
    none

/-! ## PKA engine state (src/crypto/bignum.rs, src/crypto/ecc.rs)

The registers of the big-number accelerator that the driver touches, plus
the PKA RAM contents.  `run` is the run bit of the function register: the
driver checks it on entry (is_pka_in_use), sets it when triggering an
operation, and busy-polls until the hardware clears it. -/

/-- Operation selected in the PKA function register. -/
inductive PkaFunc where
  | idle
  | add
  | subtract
  | addsub
  | multiply
  | modulo
  | compare
  | sequencer (bits : Nat)
deriving DecidableEq, Repr

structure PkaState where
  run : Bool
  aptr : Nat
  bptr : Nat
  cptr : Nat
  dptr : Nat
  alength : Nat
  blength : Nat
  func : PkaFunc
  ram : Nat → Nat

/-- What the hardware reports once the run bit clears: the transformation
it applied to PKA RAM, and the MSW / shift status registers.  These are
inputs of the model because the accelerator itself is outside the
repository. -/
structure PkaHw where
  ramEffect : (Nat → Nat) → (Nat → Nat)
  msw_address : Nat
  result_is_zero : Bool
  shift : Nat

/-- Crypto::add (src/crypto/bignum.rs lines 161-207). -/
def Crypto.add (num1 num2 result : List Nat) (s : PkaState) (hw : PkaHw) :
    Res (Nat × List Nat) × PkaState :=
  if s.run then (.err .PkaBusy, s)
  else
    let s := { s with aptr := 0 }
    match PkaRam.write_slice num1 0 s.ram with
    | none => (.fault, s)
    | some (ram, w1) =>
      let offset := 0 + w1
      let s := { s with ram := ram, bptr := offset >>> 2 }
      match PkaRam.write_slice num2 offset s.ram with
      | none => (.fault, s)
      | some (ram, w2) =>
        let offset := offset + w2
        let result_start := offset >>> 2
        let s := { s with
          ram := ram
          cptr := offset >>> 2
          alength := num1.length
          blength := num2.length
          func := .add
          run := true }
        let s := { s with run := false, ram := hw.ramEffect s.ram }
        let result_end := hw.msw_address
        if hw.result_is_zero then (.ok (0, List.replicate result.length 0), s)
        else if result_end < result_start then (.fault, s)
        else
          let len := result_end - result_start + 1
          if len ≤ result.length then
            match PkaRam.read_slice len (result_start <<< 2) s.ram with
            | none => (.fault, s)
            | some ws => (.ok (len, ws ++ result.drop len), s)
          else (.fault, s)

/-- Crypto::sub (src/crypto/bignum.rs lines 212-259). -/
def Crypto.sub (num1 num2 result : List Nat) (s : PkaState) (hw : PkaHw) :
    Res (Nat × List Nat) × PkaState :=
  if s.run then (.err .PkaBusy, s)
  else
    let s := { s with aptr := 0 }
    match PkaRam.write_slice num1 0 s.ram with
    | none => (.fault, s)
    | some (ram, w1) =>
      let offset := 0 + w1
      let s := { s with ram := ram, bptr := offset >>> 2 }
      match PkaRam.write_slice num2 offset s.ram with
      | none => (.fault, s)
      | some (ram, w2) =>
        let offset := offset + w2
        let result_start := offset >>> 2
        let s := { s with
          ram := ram
          cptr := offset >>> 2
          alength := num1.length
          blength := num2.length
          func := .subtract
          run := true }
        let s := { s with run := false, ram := hw.ramEffect s.ram }
        let result_end := hw.msw_address
        if hw.result_is_zero then (.ok (0, List.replicate result.length 0), s)
        else if result_end < result_start then (.fault, s)
        else
          let len := result_end - result_start + 1
          if len ≤ result.length then
            match PkaRam.read_slice len (result_start <<< 2) s.ram with
            | none => (.fault, s)
            | some ws => (.ok (len, ws ++ result.drop len), s)
          else (.fault, s)

/-- Crypto::add_sub, computing A + C - B (src/crypto/bignum.rs lines
264-315): writes A, then B, then C, result vector D. -/
def Crypto.add_sub (a c b result : List Nat) (s : PkaState) (hw : PkaHw) :
    Res (Nat × List Nat) × PkaState :=
  if s.run then (.err .PkaBusy, s)
  else
    let s := { s with aptr := 0 }
    match PkaRam.write_slice a 0 s.ram with
    | none => (.fault, s)
    | some (ram, w1) =>
      let offset := 0 + w1
      let s := { s with ram := ram, bptr := offset >>> 2 }
      match PkaRam.write_slice b offset s.ram with
      | none => (.fault, s)
      | some (ram, w2) =>
        let offset := offset + w2
        let s := { s with ram := ram, cptr := offset >>> 2 }
        match PkaRam.write_slice c offset s.ram with
        | none => (.fault, s)
        | some (ram, w3) =>
          let offset := offset + w3
          let result_start := offset >>> 2
          let s := { s with
            ram := ram
            dptr := offset >>> 2
            alength := a.length
            func := .addsub
            run := true }
          let s := { s with run := false, ram := hw.ramEffect s.ram }
          let result_end := hw.msw_address
          if hw.result_is_zero then (.ok (0, List.replicate result.length 0), s)
          else if result_end < result_start then (.fault, s)
          else
            let len := result_end - result_start + 1
            if len ≤ result.length then
              match PkaRam.read_slice len (result_start <<< 2) s.ram with
              | none => (.fault, s)
              | some ws => (.ok (len, ws ++ result.drop len), s)
            else (.fault, s)

/-- Crypto::mul (src/crypto/bignum.rs lines 321-367). -/
def Crypto.mul (num1 num2 result : List Nat) (s : PkaState) (hw : PkaHw) :
    Res (Nat × List Nat) × PkaState :=
  if s.run then (.err .PkaBusy, s)
  else
    let s := { s with aptr := 0 }
    match PkaRam.write_slice num1 0 s.ram with
    | none => (.fault, s)
    | some (ram, w1) =>
      let offset := 0 + w1
      let s := { s with ram := ram, bptr := offset >>> 2 }
      match PkaRam.write_slice num2 offset s.ram with
      | none => (.fault, s)
      | some (ram, w2) =>
        let offset := offset + w2
        let result_start := offset >>> 2
        let s := { s with
          ram := ram
          cptr := offset >>> 2
          alength := num1.length
          blength := num2.length
          func := .multiply
          run := true }
        let s := { s with run := false, ram := hw.ramEffect s.ram }
        let result_end := hw.msw_address
        if hw.result_is_zero then (.ok (0, List.replicate result.length 0), s)
        else if result_end < result_start then (.fault, s)
        else
          let len := result_end - result_start + 1
          if len ≤ result.length then
            match PkaRam.read_slice len (result_start <<< 2) s.ram with
            | none => (.fault, s)
            | some ws => (.ok (len, ws ++ result.drop len), s)
          else (.fault, s)

/-- Crypto::modulo (src/crypto/bignum.rs lines 375-416): on the
result-is-zero flag it zero-fills the caller buffer but still reports
length `num2.len() + 1`; otherwise it reads back a fixed `num2.len() + 1`
words. -/
def Crypto.modulo (num1 num2 result : List Nat) (s : PkaState) (hw : PkaHw) :
    Res (Nat × List Nat) × PkaState :=
  if s.run then (.err .PkaBusy, s)
  else
    let s := { s with aptr := 0 }
    match PkaRam.write_slice num1 0 s.ram with
    | none => (.fault, s)
    | some (ram, w1) =>
      let offset := 0 + w1
      let s := { s with ram := ram, bptr := offset >>> 2 }
      match PkaRam.write_slice num2 offset s.ram with
      | none => (.fault, s)
      | some (ram, w2) =>
        let offset := offset + w2
        let s := { s with
          ram := ram
          cptr := offset >>> 2
          alength := num1.length
          blength := num2.length
          func := .modulo
          run := true }
        let s := { s with run := false, ram := hw.ramEffect s.ram }
        if hw.result_is_zero then
          (.ok (num2.length + 1, List.replicate result.length 0), s)
        else
          let len := num2.length + 1
          if len ≤ result.length then
            match PkaRam.read_slice len offset s.ram with
            | none => (.fault, s)
            | some ws => (.ok (len, ws ++ result.drop len), s)
          else (.fault, s)

/-- Crypto::inv_modulo (src/crypto/bignum.rs lines 419-456): dispatches on
the shift status register after completion; status 0 reads back
`num1.len()` words, 7 is NoSolution, 31 is PkaFailure, and anything else
hits the unreachable arm (a panic). -/
def Crypto.inv_modulo (num1 num2 result : List Nat) (s : PkaState) (hw : PkaHw) :
    Res (List Nat) × PkaState :=
  if s.run then (.err .PkaBusy, s)
  else
    let s := { s with aptr := 0 }
    match PkaRam.write_slice num1 0 s.ram with
    | none => (.fault, s)
    | some (ram, w1) =>
      let offset := 0 + w1
      let s := { s with ram := ram, bptr := offset >>> 2 }
      match PkaRam.write_slice num2 offset s.ram with
      | none => (.fault, s)
      | some (ram, w2) =>
        let offset := offset + w2
        let s := { s with
          ram := ram
          cptr := offset >>> 2
          alength := num1.length
          blength := num2.length
          func := .sequencer 0b111
          run := true }
        let s := { s with run := false, ram := hw.ramEffect s.ram }
        if hw.shift = 0 then
          if num1.length ≤ result.length then
            match PkaRam.read_slice num1.length offset s.ram with
            | none => (.fault, s)
            | some ws => (.ok (ws ++ result.drop num1.length), s)
          else (.fault, s)
        else if hw.shift = 7 then (.err .NoSolution, s)
        else if hw.shift = 31 then (.err .PkaFailure, s)
        else (.fault, s)

/-- Crypto::exp (src/crypto/bignum.rs lines 460-513): modular
exponentiation; silently returns (no typed error) on a busy accelerator or
a zero result. -/
def Crypto.exp (exponent modulus base result : List Nat) (s : PkaState) (hw : PkaHw) :
    Res (List Nat) × PkaState :=
  if s.run then (.ok result, s)
  else
    let s := { s with aptr := 0 }
    match PkaRam.write_slice exponent 0 s.ram with
    | none => (.fault, s)
    | some (ram, w1) =>
      let offset := 0 + w1
      let s := { s with ram := ram, bptr := offset >>> 2 }
      match PkaRam.write_slice modulus offset s.ram with
      | none => (.fault, s)
      | some (ram, w2) =>
        let offset := offset + w2
        let s := { s with ram := ram, cptr := offset >>> 2 }
        match PkaRam.write_slice base offset s.ram with
        | none => (.fault, s)
        | some (ram, _) =>
          let s := { s with
            ram := ram
            dptr := offset >>> 2
            alength := exponent.length
            blength := modulus.length
            func := .sequencer 0b010
            run := true }
          let s := { s with run := false, ram := hw.ramEffect s.ram }
          let msw_val := hw.msw_address
          if msw_val = 0 ∨ hw.result_is_zero then (.ok result, s)
          else
            let len1 := msw_val + 1
            let len2 := s.dptr
            if len1 < len2 then (.fault, s)
            else
              let len := len1 - len2
              if len ≤ result.length then
                match PkaRam.read_slice len offset s.ram with
                | none => (.fault, s)
                | some ws => (.ok (ws ++ result.drop len), s)
              else (.fault, s)

/-! ## ECC engine (src/crypto/ecc.rs) -/

/-- A named curve (EccCurveInfo in src/crypto/ecc.rs). -/
structure EccCurveInfo where
  size : Nat
  prime : List Nat
  order : List Nat
  a_coef : List Nat
  b_coef : List Nat
  bp_x : List Nat
  bp_y : List Nat

/-- A point given by coordinate word vectors (EcPoint in src/crypto/ecc.rs). -/
structure EcPoint where
  x : List Nat
  y : List Nat

/-- Operand layout of Crypto::ecc_mul (src/crypto/ecc.rs lines 95-129):
scalar as vector A, prime / a / b coefficients as vector B, the point
coordinates as vector C, vector D at the running offset; then the scalar
multiplication sequencer operation is triggered.  Returns the updated
state and the offset at which the result vector D starts; `none` is a
panic (a failed write_slice bound or a short coordinate slice). -/
def Crypto.ecc_mul_layout (curve : EccCurveInfo) (scalar : List Nat)
    (point : EcPoint) (s : PkaState) : Option (PkaState × Nat) :=
  let extra_buf := (2 + curve.size % 2) * 4
  let s := { s with aptr := 0 >>> 2 }
  match PkaRam.write_slice scalar 0 s.ram with
  | none => none
  | some (ram, w) =>
    let offset := 0 + w + curve.size % 2
    let s := { s with ram := ram, bptr := offset >>> 2 }
    match PkaRam.write_slice curve.prime offset s.ram with
    | none => none
    | some (ram, w) =>
      let offset := offset + w + extra_buf
      let s := { s with ram := ram }
      match PkaRam.write_slice curve.a_coef offset s.ram with
      | none => none
      | some (ram, w) =>
        let offset := offset + w + extra_buf
        let s := { s with ram := ram }
        match PkaRam.write_slice curve.b_coef offset s.ram with
        | none => none
        | some (ram, w) =>
          let offset := offset + w + extra_buf
          let s := { s with ram := ram, cptr := offset >>> 2 }
          if curve.size ≤ point.x.length ∧ curve.size ≤ point.y.length then
            match PkaRam.write_slice (point.x.take curve.size) offset s.ram with
            | none => none
            | some (ram, w) =>
              let offset := offset + w + extra_buf
              let s := { s with ram := ram }
              match PkaRam.write_slice (point.y.take curve.size) offset s.ram with
              | none => none
              | some (ram, w) =>
                let offset := offset + w + extra_buf
                let s := { s with
                  ram := ram
                  dptr := offset >>> 2
                  alength := curve.size
                  blength := curve.size
                  func := .sequencer 0b101
                  run := true }
                some (s, offset)
          else none

/-- Reading back the two result coordinates of an EC operation
(src/crypto/ecc.rs lines 136-149 and 204-217): x at `offset`, then y at
`offset + 4*(len + 2 + len % 2)`, each `len = msw + 1 - dptr` words. -/
def eccReadResult (result : List Nat) (offset : Nat) (s : PkaState) (hw : PkaHw) :
    Res (List Nat) × PkaState :=
  let msw_val := hw.msw_address
  if msw_val = 0 ∨ hw.result_is_zero then (.err .PkaFailure, s)
  else
    let len1 := msw_val + 1
    let len2 := s.dptr
    if len1 < len2 then (.fault, s)
    else
      let len := len1 - len2
      if 2 * len ≤ result.length then
        match PkaRam.read_slice len offset s.ram with
        | none => (.fault, s)
        | some ws1 =>
          let offset := offset + 4 * (len + 2 + len % 2)
          match PkaRam.read_slice len offset s.ram with
          | none => (.fault, s)
          | some ws2 => (.ok (ws1 ++ ws2 ++ result.drop (2 * len)), s)
      else (.fault, s)

/-- Crypto::ecc_mul (src/crypto/ecc.rs lines 84-150). -/
def Crypto.ecc_mul (curve : EccCurveInfo) (scalar : List Nat) (point : EcPoint)
    (result : List Nat) (s : PkaState) (hw : PkaHw) : Res (List Nat) × PkaState :=
  if s.run then (.err .PkaBusy, s)
  else
    match Crypto.ecc_mul_layout curve scalar point s with
    | none => (.fault, s)
    | some (s1, offset) =>
      let s2 := { s1 with run := false, ram := hw.ramEffect s1.ram }
      if hw.shift ≠ 0 ∧ hw.shift ≠ 7 then (.err .PkaFailure, s2)
      else eccReadResult result offset s2 hw

/-- Operand layout of Crypto::ecc_add (src/crypto/ecc.rs lines 163-198):
point A coordinates as vector A, prime and a coefficient as vector B,
point B coordinates as vector C, vector D at the running offset. -/
def Crypto.ecc_add_layout (curve : EccCurveInfo) (point_a point_b : EcPoint)
    (s : PkaState) : Option (PkaState × Nat) :=
  let extra_buf := 2 + curve.size % 2
  let s := { s with aptr := 0 >>> 2 }
  if curve.size ≤ point_a.x.length ∧ curve.size ≤ point_a.y.length ∧
     curve.size ≤ point_b.x.length ∧ curve.size ≤ point_b.y.length then
    match PkaRam.write_slice (point_a.x.take curve.size) 0 s.ram with
    | none => none
    | some (ram, w) =>
      let offset := 0 + w + 4 * extra_buf
      let s := { s with ram := ram }
      match PkaRam.write_slice (point_a.y.take curve.size) offset s.ram with
      | none => none
      | some (ram, w) =>
        let offset := offset + w + 4 * extra_buf
        let s := { s with ram := ram, bptr := offset >>> 2 }
        match PkaRam.write_slice curve.prime offset s.ram with
        | none => none
        | some (ram, w) =>
          let offset := offset + w + 4 * extra_buf
          let s := { s with ram := ram }
          match PkaRam.write_slice curve.a_coef offset s.ram with
          | none => none
          | some (ram, w) =>
            let offset := offset + w + 4 * extra_buf
            let s := { s with ram := ram, cptr := offset >>> 2 }
            match PkaRam.write_slice (point_b.x.take curve.size) offset s.ram with
            | none => none
            | some (ram, w) =>
              let offset := offset + w + 4 * extra_buf
              let s := { s with ram := ram }
              match PkaRam.write_slice (point_b.y.take curve.size) offset s.ram with
              | none => none
              | some (ram, w) =>
                let offset := offset + w + 4 * extra_buf
                let s := { s with
                  ram := ram
                  dptr := offset >>> 2
                  blength := curve.size
                  func := .sequencer 0b011
                  run := true }
                some (s, offset)
  else none

/-- Crypto::ecc_add (src/crypto/ecc.rs lines 152-218). -/
def Crypto.ecc_add (curve : EccCurveInfo) (point_a point_b : EcPoint)
    (result : List Nat) (s : PkaState) (hw : PkaHw) : Res (List Nat) × PkaState :=
  if s.run then (.err .PkaBusy, s)
  else
    match Crypto.ecc_add_layout curve point_a point_b s with
    | none => (.fault, s)
    | some (s1, offset) =>
      let s2 := { s1 with run := false, ram := hw.ramEffect s1.ram }
      if hw.shift ≠ 0 ∧ hw.shift ≠ 7 then (.err .PkaFailure, s2)
      else eccReadResult result offset s2 hw

/-! ## List helpers shared by the AES and SHA-256 models -/

/-- Rust `l[start..stop].copy_from_slice(src)`: replaces the elements of
`l` between `start` and `stop` by `src`; `none` on an invalid range or a
length mismatch (both panic). -/
def setSlice (l : List Nat) (start stop : Nat) (src : List Nat) : Option (List Nat) :=
  if start ≤ stop ∧ stop ≤ l.length ∧ src.length = stop - start then
    some (l.take start ++ src ++ l.drop stop)
  else none

/-- Rust `l[k..].fill_with(zero)`: zeroes every element from index `k`
on. -/
def fillZeroFrom (l : List Nat) (k : Nat) : List Nat :=
  l.take k ++ List.replicate (l.length - k) 0

/-- Little-endian byte serialisation of a 32-bit word (`u32::to_le_bytes`). -/
def wordToBytesLE (w : Nat) : List Nat :=
  [w % 256, (w >>> 8) % 256, (w >>> 16) % 256, (w >>> 24) % 256]

/-! ## AES engine, CTR mode (src/crypto/aes_engine/ctr.rs and auth_crypt
in src/crypto/aes_engine/mod.rs)

The AES core itself is hardware, outside the repository, so the keystream
it generates is a parameter of the model: a function of the key-store
index, the counter-width control field and the 16-byte IV, giving the
keystream byte at each position.  Integer overflow is modelled with the
wrapping (release profile) semantics of the firmware build. -/

/-- XOR a byte list against keystream bytes `ks i`, `ks (i+1)`, ... -/
def xorStream (ks : Nat → Nat) : Nat → List Nat → List Nat
  | _, [] => []
  | i, b :: bs => (b ^^^ ks i) :: xorStream ks (i + 1) bs

/-- Modelled from the spec: the hardware AES engine in CTR mode (the
engine itself is not part of the repository).  Its output is the input
XORed with a keystream determined by the loaded key, the counter-width
field and the IV; in counter mode the encrypt and decrypt directions
apply the same keystream, so the direction control bit does not change
the transformation. -/
def aesCtrOutput (ks : Nat → Nat → List Nat → Nat → Nat) (key width : Nat)
    (iv input : List Nat) : List Nat :=
  xorStream (ks key width iv) 0 input

/-- Crypto::auth_crypt (src/crypto/aes_engine/mod.rs lines 272-336)
specialised to the CTR configuration closure (no associated data): checks
the busy flag, selects the key and bails out silently on a key-store read
error, writes the 16-byte IV (asserted length), then DMAs `data_in`
through the engine into `data_out`.  The `direction` bit set by the
closure is recorded but, per the CTR model above, does not affect the
keystream. -/
def Crypto.auth_crypt_ctr (ks : Nat → Nat → List Nat → Nat → Nat)
    (busy keyLoadError : Bool) (direction : Bool) (key width : Nat)
    (iv data_in data_out : List Nat) : Option (List Nat) :=
  if busy then some data_out
  else if keyLoadError then some data_out
  else if iv.length = 16 then
    if data_in.length = 0 then some data_out
    else if data_out.length = 0 then some data_out
    else
      let out := aesCtrOutput ks key width iv data_in
      some (out.take data_out.length ++ data_out.drop out.length)
  else none

/-- Crypto::ctr_encrypt (src/crypto/aes_engine/ctr.rs lines 10-39):
IV = nonce || ctr (panics unless the parts total 16 bytes), counter width
field `(ctr.len() >> 2) as u8 - 1` (wrapping), direction bit set. -/
def Crypto.ctr_encrypt (ks : Nat → Nat → List Nat → Nat → Nat)
    (busy keyLoadError : Bool) (key : Nat)
    (nonce ctr data_in data_out : List Nat) : Option (List Nat) :=
  if busy then some data_out
  else
    let width := ((ctr.length >>> 2) % 256 + 255) % 256
    if nonce.length + ctr.length = 16 then
      let iv := nonce ++ ctr
      Crypto.auth_crypt_ctr ks busy keyLoadError true key width iv data_in data_out
    else none

/-- Crypto::ctr_decrypt (src/crypto/aes_engine/ctr.rs lines 41-70): same
as ctr_encrypt except the direction bit is cleared. -/
def Crypto.ctr_decrypt (ks : Nat → Nat → List Nat → Nat → Nat)
    (busy keyLoadError : Bool) (key : Nat)
    (nonce ctr data_in data_out : List Nat) : Option (List Nat) :=
  if busy then some data_out
  else
    let width := ((ctr.length >>> 2) % 256 + 255) % 256
    if nonce.length + ctr.length = 16 then
      let iv := nonce ++ ctr
      Crypto.auth_crypt_ctr ks busy keyLoadError false key width iv data_in data_out
    else none

/-! ## AES engine, CCM mode (src/crypto/aes_engine/ccm.rs) -/

/-- AesCcmInfo (src/crypto/aes_engine/ccm.rs lines 10-15). -/
structure AesCcmInfo where
  key_index : Nat
  len_field_size : Nat
  auth_field_size : Nat
  adata : Option (List Nat)

/-- CtrWidth::Width128 as u8 (src/crypto/mod.rs lines 524-528: the first
enum variant, value 0). -/
def ctrWidth128 : Nat := 0

/-- The aes_ctrl fields written by the CCM control closures
(src/crypto/aes_engine/ccm.rs lines 80-97 and 113-130). -/
structure AesCtrlCcm where
  save_context : Bool
  ccm_m : Nat
  ccm_l : Nat
  ccm : Bool
  ctr_width : Nat
  ctr : Bool
  direction : Bool
deriving DecidableEq, Repr

/-- Control-register configuration built by Crypto::ccm_encrypt
(src/crypto/aes_engine/ccm.rs lines 77-97): M = (auth_field_size.max(2) -
2) >> 1 and L = len_field_size - 1 (wrapping u8 arithmetic). -/
def Crypto.ccm_encrypt_ctrl (info : AesCcmInfo) : AesCtrlCcm :=
  let m := (max info.auth_field_size 2 - 2) >>> 1
  let l := (info.len_field_size % 256 + 255) % 256
  ⟨true, m, l, true, ctrWidth128, true, true⟩

/-- CCM_NONCE_LEN (src/crypto/aes_engine/ccm.rs line 36). -/
def ccmNonceLen : Nat := 15

/-- The 16-byte IV assembled by Crypto::ccm_crypt (src/crypto/aes_engine/
ccm.rs lines 54-57): `iv[0] = len_field_size - 1`, `iv[1..][..15 -
len_field_size] = nonce` (panics unless the nonce has exactly that
length), `iv[16 - len_field_size..]` zero-filled.  The usize subtractions
`15 - L` and `16 - L` require `L <= 15`; a larger L makes the slice
bounds overflow and panic (`none`). -/
def Crypto.ccm_iv (info : AesCcmInfo) (nonce : List Nat) : Option (List Nat) :=
  let l := info.len_field_size
  if l ≤ ccmNonceLen then
    let iv := List.replicate 16 0
    let iv := iv.set 0 ((l % 256 + 255) % 256)
    match setSlice iv 1 (1 + (ccmNonceLen - l)) nonce with
    | none => none
    | some iv => some (fillZeroFrom iv (16 - l))
  else none

/-- AES-side hardware inputs of the CCM model: the busy flag sampled at
entry, the key-store read-error flag, and the four aes_tag_out registers
read by read_tag. -/
structure AesHw where
  busy : Bool
  keyLoadError : Bool
  tag0 : Nat
  tag1 : Nat
  tag2 : Nat
  tag3 : Nat

/-- Modelled from the spec: the hardware AES engine in CCM mode (not part
of the repository), as a parameter giving the bytes DMAd out for a given
control configuration, key index, IV, associated data and input. -/
def CcmEngine : Type :=
  AesCtrlCcm → Nat → List Nat → List Nat → List Nat → List Nat

/-- Crypto::ccm_crypt (src/crypto/aes_engine/ccm.rs lines 38-67): busy
check, CCM IV construction, then delegation to auth_crypt. -/
def Crypto.ccm_crypt (enc : CcmEngine) (hw : AesHw) (ctrl : AesCtrlCcm)
    (info : AesCcmInfo) (nonce data_in data_out : List Nat) : Option (List Nat) :=
  if hw.busy then some data_out
  else
    match Crypto.ccm_iv info nonce with
    | none => none
    | some iv =>
      -- auth_crypt: second busy check, key selection, key-error bailout,
      -- IV write, control closure, associated data and payload DMA
      if hw.keyLoadError then some data_out
      else if iv.length = 16 then
        if data_in.length = 0 then some data_out
        else if data_out.length = 0 then some data_out
        else
          let out := enc ctrl info.key_index iv (info.adata.getD []) data_in
          some (out.take data_out.length ++ data_out.drop out.length)
      else none

/-- Crypto::read_tag (src/crypto/aes_engine/mod.rs lines 192-209):
asserts a 16-byte tag buffer and overwrites it with the four aes_tag_out
registers serialised little-endian. -/
def Crypto.read_tag (hw : AesHw) (tag : List Nat) : Option (List Nat) :=
  if tag.length = 16 then
    some (wordToBytesLE hw.tag0 ++ wordToBytesLE hw.tag1 ++
          wordToBytesLE hw.tag2 ++ wordToBytesLE hw.tag3)
  else none

/-- Crypto::ccm_encrypt (src/crypto/aes_engine/ccm.rs lines 69-101):
runs ccm_crypt with the encrypt control configuration, then
unconditionally reads the tag registers into `tag`. -/
def Crypto.ccm_encrypt (enc : CcmEngine) (hw : AesHw) (info : AesCcmInfo)
    (nonce data_in data_out tag : List Nat) : Option (List Nat × List Nat) :=
  match Crypto.ccm_crypt enc hw (Crypto.ccm_encrypt_ctrl info) info nonce data_in data_out with
  | none => none
  | some out =>
    match Crypto.read_tag hw tag with
    | none => none
    | some t => some (out, t)

/-! ## BigNum wrapper (src/crypto/bignum.rs lines 14-123)

`BigNum<const MAX_LEN>` is a fixed `[u32; MAX_LEN]` buffer plus an active
size.  The compile-time capacity MAX_LEN is the length of the buffer
list, which every constructor fixes to the requested capacity. -/

structure BigNum where
  buffer : List Nat
  size : Nat
deriving DecidableEq, Repr

/-- BigNum::new (src/crypto/bignum.rs lines 27-32): zeroed buffer of the
compile-time capacity, active size as requested — with no check that it
fits. -/
def BigNum.new (maxLen size : Nat) : BigNum :=
  ⟨List.replicate maxLen 0, size⟩

/-- BigNum::set_size (src/crypto/bignum.rs lines 35-38):
`assert!(size <= MAX_LEN)` then store the size. -/
def BigNum.set_size (bn : BigNum) (size : Nat) : Option BigNum :=
  if size ≤ bn.buffer.length then some { bn with size := size } else none

/-- BigNum::inner / inner_mut: `&buffer[..size]`, which panics when the
active size exceeds the capacity. -/
def BigNum.inner (bn : BigNum) : Option (List Nat) :=
  if bn.size ≤ bn.buffer.length then some (bn.buffer.take bn.size) else none

/-- Write the mutated `inner_mut` view (the first `size` elements) back
into the buffer. -/
def BigNum.withInner (bn : BigNum) (out : List Nat) : BigNum :=
  { bn with buffer := out ++ bn.buffer.drop bn.size }

/-- BigNum::add (src/crypto/bignum.rs lines 51-56). -/
def BigNum.add (a b : BigNum) (s : PkaState) (hw : PkaHw) : Res BigNum × PkaState :=
  let tmp := BigNum.new a.buffer.length (max a.size b.size + 1)
  match a.inner, b.inner, tmp.inner with
  | some ia, some ib, some it =>
    match Crypto.add ia ib it s hw with
    | (.ok (len, out), s1) =>
      match (tmp.withInner out).set_size len with
      | some tmp2 => (.ok tmp2, s1)
      | none => (.fault, s1)
    | (.err e, s1) => (.err e, s1)
    | (.fault, s1) => (.fault, s1)
  | _, _, _ => (.fault, s)

/-- BigNum::sub (src/crypto/bignum.rs lines 59-64). -/
def BigNum.sub (a b : BigNum) (s : PkaState) (hw : PkaHw) : Res BigNum × PkaState :=
  let tmp := BigNum.new a.buffer.length (max a.size b.size)
  match a.inner, b.inner, tmp.inner with
  | some ia, some ib, some it =>
    match Crypto.sub ia ib it s hw with
    | (.ok (len, out), s1) =>
      match (tmp.withInner out).set_size len with
      | some tmp2 => (.ok tmp2, s1)
      | none => (.fault, s1)
    | (.err e, s1) => (.err e, s1)
    | (.fault, s1) => (.fault, s1)
  | _, _, _ => (.fault, s)

/-- BigNum::add_sub (src/crypto/bignum.rs lines 68-77): A + C - B. -/
def BigNum.add_sub (a c b : BigNum) (s : PkaState) (hw : PkaHw) : Res BigNum × PkaState :=
  let tmp := BigNum.new a.buffer.length a.size
  match a.inner, c.inner, b.inner, tmp.inner with
  | some ia, some ic, some ib, some it =>
    match Crypto.add_sub ia ic ib it s hw with
    | (.ok (len, out), s1) =>
      match (tmp.withInner out).set_size len with
      | some tmp2 => (.ok tmp2, s1)
      | none => (.fault, s1)
    | (.err e, s1) => (.err e, s1)
    | (.fault, s1) => (.fault, s1)
  | _, _, _, _ => (.fault, s)

/-- BigNum::mul (src/crypto/bignum.rs lines 80-85). -/
def BigNum.mul (a b : BigNum) (s : PkaState) (hw : PkaHw) : Res BigNum × PkaState :=
  let tmp := BigNum.new a.buffer.length (a.size + b.size + 6)
  match a.inner, b.inner, tmp.inner with
  | some ia, some ib, some it =>
    match Crypto.mul ia ib it s hw with
    | (.ok (len, out), s1) =>
      match (tmp.withInner out).set_size len with
      | some tmp2 => (.ok tmp2, s1)
      | none => (.fault, s1)
    | (.err e, s1) => (.err e, s1)
    | (.fault, s1) => (.fault, s1)
  | _, _, _ => (.fault, s)

/-- BigNum::modulo (src/crypto/bignum.rs lines 95-100). -/
def BigNum.modulo (a b : BigNum) (s : PkaState) (hw : PkaHw) : Res BigNum × PkaState :=
  let tmp := BigNum.new a.buffer.length (b.size + 2)
  match a.inner, b.inner, tmp.inner with
  | some ia, some ib, some it =>
    match Crypto.modulo ia ib it s hw with
    | (.ok (len, out), s1) =>
      match (tmp.withInner out).set_size len with
      | some tmp2 => (.ok tmp2, s1)
      | none => (.fault, s1)
    | (.err e, s1) => (.err e, s1)
    | (.fault, s1) => (.fault, s1)
  | _, _, _ => (.fault, s)

/-- BigNum::inv_mod (src/crypto/bignum.rs lines 103-107): no set_size
call; the result keeps the size `rhs.size + 1` given at construction. -/
def BigNum.inv_mod (a b : BigNum) (s : PkaState) (hw : PkaHw) : Res BigNum × PkaState :=
  let tmp := BigNum.new a.buffer.length (b.size + 1)
  match a.inner, b.inner, tmp.inner with
  | some ia, some ib, some it =>
    match Crypto.inv_modulo ia ib it s hw with
    | (.ok out, s1) => (.ok (tmp.withInner out), s1)
    | (.err e, s1) => (.err e, s1)
    | (.fault, s1) => (.fault, s1)
  | _, _, _ => (.fault, s)

/-- BigNum::exp (src/crypto/bignum.rs lines 112-117): C^A mod B; the
result buffer is created with size MAX_LEN and returned as is. -/
def BigNum.exp (a modulus base : BigNum) (s : PkaState) (hw : PkaHw) : Res BigNum × PkaState :=
  let tmp := BigNum.new a.buffer.length a.buffer.length
  match a.inner, modulus.inner, base.inner, tmp.inner with
  | some ia, some im, some ibase, some it =>
    match Crypto.exp ia im ibase it s hw with
    | (.ok out, s1) => (.ok (tmp.withInner out), s1)
    | (.err e, s1) => (.err e, s1)
    | (.fault, s1) => (.fault, s1)
  | _, _, _, _ => (.fault, s)

/-! ## SHA-256 (src/crypto/sha2.rs)

The hash core is hardware; the repository only drives it.  Per the spec,
a "new hash" operation starts a fresh FIPS 180-4 SHA-256 session, a
"resume hash" continues from previously read-back digest words, and when
the pad-DMA-message bit is set the core appends the standard
Merkle-Damgard padding using the 64-bit bit length written by software.
We therefore model the core by the FIPS 180-4 compression function and
padding rule, and the driver by its literal control flow. -/

/-- Truncation to a 32-bit word. -/
def w32 (x : Nat) : Nat := x % 4294967296

/-- 32-bit rotate right. -/
def rotr (x n : Nat) : Nat := w32 ((x >>> n) ||| (x <<< (32 - n)))

/-- FIPS 180-4 big sigma and small sigma functions and the choice /
majority functions. -/
def bsig0 (x : Nat) : Nat := rotr x 2 ^^^ rotr x 13 ^^^ rotr x 22

def bsig1 (x : Nat) : Nat := rotr x 6 ^^^ rotr x 11 ^^^ rotr x 25

def ssig0 (x : Nat) : Nat := rotr x 7 ^^^ rotr x 18 ^^^ (x >>> 3)

def ssig1 (x : Nat) : Nat := rotr x 17 ^^^ rotr x 19 ^^^ (x >>> 10)

def chF (x y z : Nat) : Nat := (x &&& y) ^^^ ((x ^^^ 4294967295) &&& z)

def majF (x y z : Nat) : Nat := (x &&& y) ^^^ (x &&& z) ^^^ (y &&& z)

/-- The SHA-256 round constants. -/
def sha256K : List Nat :=
  [1116352408, 1899447441, 3049323471, 3921009573, 961987163, 1508970993,
   2453635748, 2870763221, 3624381080, 310598401, 607225278, 1426881987,
   1925078388, 2162078206, 2614888103, 3248222580, 3835390401, 4022224774,
   264347078, 604807628, 770255983, 1249150122, 1555081692, 1996064986,
   2554220882, 2821834349, 2952996808, 3210313671, 3336571891, 3584528711,
   113926993, 338241895, 666307205, 773529912, 1294757372, 1396182291,
   1695183700, 1986661051, 2177026350, 2456956037, 2730485921, 2820302411,
   3259730800, 3345764771, 3516065817, 3600352804, 4094571909, 275423344,
   430227734, 506948616, 659060556, 883997877, 958139571, 1322822218,
   1537002063, 1747873779, 1955562222, 2024104815, 2227730452, 2361852424,
   2428436474, 2756734187, 3204031479, 3329325298]

/-- The SHA-256 initial hash value. -/
def sha256H0 : List Nat :=
  [1779033703, 3144134277, 1013904242, 2773480762,
   1359893119, 2600822924, 528734635, 1541459225]

/-- One step of the message-schedule extension. -/
def schedStep (w : List Nat) : List Nat :=
  w ++ [w32 (ssig1 (w.getD (w.length - 2) 0) + w.getD (w.length - 7) 0 +
             ssig0 (w.getD (w.length - 15) 0) + w.getD (w.length - 16) 0)]

/-- Extend a 16-word block to the 64-word message schedule. -/
def schedule : Nat → List Nat → List Nat
  | 0, w => w
  | n + 1, w => schedule n (schedStep w)

/-- One SHA-256 round, on the eight working variables. -/
def sha256Round (s : List Nat) (kw : Nat) : List Nat :=
  let a := s.getD 0 0
  let b := s.getD 1 0
  let c := s.getD 2 0
  let d := s.getD 3 0
  let e := s.getD 4 0
  let f := s.getD 5 0
  let g := s.getD 6 0
  let h := s.getD 7 0
  let t1 := w32 (h + bsig1 e + chF e f g + kw)
  let t2 := w32 (bsig0 a + majF a b c)
  [w32 (t1 + t2), a, b, c, w32 (d + t1), e, f, g]

/-- The FIPS 180-4 SHA-256 compression function: digest words, one
16-word block. -/
def compress (h block : List Nat) : List Nat :=
  let w := schedule 48 block
  let s := (List.zipWith (fun k wi => w32 (k + wi)) sha256K w).foldl sha256Round h
  List.zipWith (fun x y => w32 (x + y)) h s

/-- Big-endian bytes to 32-bit words, four at a time. -/
def bytesToWords : List Nat → List Nat
  | a :: b :: c :: d :: rest =>
    ((a <<< 24) ||| (b <<< 16) ||| (c <<< 8) ||| d) :: bytesToWords rest
  | _ => []

/-- Big-endian byte serialisation of a word. -/
def wordToBytesBE (w : Nat) : List Nat :=
  [(w >>> 24) % 256, (w >>> 16) % 256, (w >>> 8) % 256, w % 256]

/-- Big-endian byte serialisation of a word list. -/
def wordsToBytesBE : List Nat → List Nat
  | [] => []
  | w :: ws => wordToBytesBE w ++ wordsToBytesBE ws

/-- The 64-bit big-endian length field of the padding (the hardware
receives the length through two 32-bit registers, so modulo 2^64). -/
def be64 (n : Nat) : List Nat :=
  let m := n % 18446744073709551616
  [(m >>> 56) % 256, (m >>> 48) % 256, (m >>> 40) % 256, (m >>> 32) % 256,
   (m >>> 24) % 256, (m >>> 16) % 256, (m >>> 8) % 256, m % 256]

/-- The Merkle-Damgard padding appended after a chunk of `chunkLen`
bytes, carrying total bit length `bitLen`: the 0x80 marker, zeros up to
56 mod 64, and the 64-bit length. -/
def mdSuffix (chunkLen bitLen : Nat) : List Nat :=
  0x80 :: List.replicate ((119 - chunkLen % 64) % 64) 0 ++ be64 bitLen

/-- Split a byte string into 64-byte blocks (the last one possibly
short; all inputs we use are block-aligned).  Structural recursion on a
fuel bound, so that the definition evaluates inside the kernel; the fuel
`xs.length` always suffices since every step consumes input. -/
def toBlocksAux : Nat → List Nat → List (List Nat)
  | 0, _ => []
  | fuel + 1, xs =>
    if xs = [] then [] else xs.take 64 :: toBlocksAux fuel (xs.drop 64)

/-- Split a byte string into 64-byte blocks. -/
def toBlocks (xs : List Nat) : List (List Nat) :=
  toBlocksAux xs.length xs

/-- Iterate the compression function over the 64-byte blocks of a byte
string. -/
def hashBlocks (h bytes : List Nat) : List Nat :=
  (toBlocks bytes).foldl (fun st blk => compress st (bytesToWords blk)) h

/-- The FIPS 180-4 SHA-256 digest of a byte string, as 32 bytes. -/
def sha256spec (msg : List Nat) : List Nat :=
  wordsToBytesBE (hashBlocks sha256H0 (msg ++ mdSuffix msg.length (8 * msg.length)))

/-- Sha256State (src/crypto/sha2.rs lines 9-16).  The digest words are
carried in FIPS order; the byte string a DMA of this state transfers is
their big-endian serialisation, matching the byte order the hardware
produces and consumes. -/
structure Sha256State where
  length : Nat
  state : List Nat
  curlen : Nat
  buf : List Nat
  new_digest : Bool
  final_digest : Bool
deriving DecidableEq, Repr

/-- Modelled from the spec: the digest the hash core computes in one
hardware operation.  From chaining value `init` it compresses the DMAd
block; with the final flag set the DMA comprises `curlen` bytes of the
block buffer plus the hardware-generated standard padding carrying the
software-written 64-bit length. -/
def hwHash (init : List Nat) (st : Sha256State) : List Nat :=
  if st.final_digest then
    hashBlocks init (st.buf.take st.curlen ++ mdSuffix st.curlen st.length)
  else
    compress init (bytesToWords (st.buf.take 64))

/-- Crypto::new_hash (src/crypto/sha2.rs lines 98-178): a fresh hash
session; the resulting digest is DMAd into the state words. -/
def Crypto.new_hash (st : Sha256State) : Sha256State :=
  { st with state := hwHash sha256H0 st }

/-- Crypto::resume_hash (src/crypto/sha2.rs lines 180-279): continue from
the digest words written back by the previous operation. -/
def Crypto.resume_hash (st : Sha256State) : Sha256State :=
  { st with state := hwHash st.state st }

/-- Crypto::finalize (src/crypto/sha2.rs lines 281-293). -/
def Crypto.finalize (st : Sha256State) : Sha256State :=
  let st := { st with
    length := (st.length + (st.curlen <<< 3) % 4294967296) % 18446744073709551616
    final_digest := true }
  let st := if st.new_digest then Crypto.new_hash st else Crypto.resume_hash st
  { st with new_digest := false, final_digest := false }

/-- The first conditional block of Crypto::sha256 (src/crypto/sha2.rs
lines 43-67), which handles the new-digest (priming) phase.  `rest` is
`data[offset..]`; the result is the updated state and the remaining
data. -/
def sha256Prime (st : Sha256State) (rest : List Nat) : Option (Sha256State × List Nat) :=
  if 0 < rest.length ∧ st.new_digest then
    if st.curlen = 0 ∧ 64 < rest.length then
      let st := { st with buf := rest.take 64 }
      let st := Crypto.new_hash st
      let st := { st with
        new_digest := false
        length := (st.length + (64 <<< 3)) % 18446744073709551616 }
      some (st, rest.drop 64)
    else
      let n := min rest.length (64 - st.curlen)
      match setSlice st.buf st.curlen n (rest.take n) with
      | none => none
      | some buf =>
        let st := { st with buf := buf, curlen := st.curlen + n }
        let rest := rest.drop n
        if st.curlen = 64 ∧ 0 < rest.length then
          let st := Crypto.new_hash st
          let st := { st with
            new_digest := false
            length := (st.length + (64 <<< 3)) % 18446744073709551616
            curlen := 0 }
          some (st, rest)
        else some (st, rest)
  else some (st, rest)

/-- The while loop of Crypto::sha256 (src/crypto/sha2.rs lines 69-91),
with fuel for termination; the driver is always run with enough fuel
(one unit per loop iteration, and each iteration consumes input). -/
def sha256Loop : Nat → Sha256State → List Nat → Option (Sha256State × List Nat)
  | 0, st, rest =>
    if 0 < rest.length ∧ st.new_digest = false then none else some (st, rest)
  | fuel + 1, st, rest =>
    if 0 < rest.length ∧ st.new_digest = false then
      if st.curlen = 0 ∧ 64 < rest.length then
        let st := { st with buf := rest.take 64 }
        let st := Crypto.resume_hash st
        let st := { st with
          length := (st.length + (64 <<< 3)) % 18446744073709551616 }
        sha256Loop fuel st (rest.drop 64)
      else
        let n := min rest.length (64 - st.curlen)
        match setSlice st.buf st.curlen n (rest.take n) with
        | none => none
        | some buf =>
          let st := { st with buf := buf, curlen := st.curlen + n }
          let rest := rest.drop n
          if st.curlen = 64 ∧ 0 < rest.length then
            let st := Crypto.resume_hash st
            let st := { st with
              length := (st.length + (64 <<< 3)) % 18446744073709551616
              curlen := 0 }
            sha256Loop fuel st rest
          else sha256Loop fuel st rest
    else some (st, rest)

/-- Outcome of Crypto::sha256: an assertion panic, a silent return with
the digest buffer untouched (busy engine), or the 32 digest bytes. -/
inductive ShaOut where
  | fault
  | skipped
  | digest (d : List Nat)
deriving DecidableEq, Repr

/-- Crypto::sha256 (src/crypto/sha2.rs lines 19-96): asserts a non-empty
input and a 32-byte digest buffer, silently returns if the AES unit is
in use, then primes, streams and finalizes the hash and copies the final
state words into the digest buffer. -/
def Crypto.sha256 (busy : Bool) (data : List Nat) (digestLen : Nat) : ShaOut :=
  let st : Sha256State :=
    { length := 0, state := [0, 0, 0, 0, 0, 0, 0, 0], curlen := 0
      buf := List.replicate 64 0, new_digest := true, final_digest := false }
  if data.length = 0 then .fault
  else if digestLen ≠ 32 then .fault
  else if busy then .skipped
  else
    match sha256Prime st data with
    | none => .fault
    | some (st, rest) =>
      match sha256Loop (rest.length + 1) st rest with
      | none => .fault
      | some (st, _) => .digest (wordsToBytesBE (Crypto.finalize st).state)

/-! ## Concrete fixtures used to instantiate the theorems below -/

/-- All-zero memory. -/
def memZero : Nat → Nat := fun _ => 0

/-- An idle PKA accelerator. -/
def pkaIdle : PkaState := ⟨false, 0, 0, 0, 0, 0, 0, .idle, memZero⟩

/-- A PKA accelerator with an operation in flight (run bit set). -/
def pkaBusy : PkaState := ⟨true, 0, 0, 0, 0, 0, 0, .idle, memZero⟩

/-- A PKA hardware response that leaves RAM unchanged and reports the
given MSW address, zero flag and shift status. -/
def pkaHwWith (msw : Nat) (zero : Bool) (shift : Nat) : PkaHw :=
  ⟨id, msw, zero, shift⟩

/-- A small test curve of size 1 for instantiating the ECC theorems. -/
def testCurve : EccCurveInfo := ⟨1, [7], [9], [2], [3], [5], [6]⟩

/-- A point on the test curve. -/
def testPoint : EcPoint := ⟨[4], [8]⟩

/-- An AES unit busy at entry, with given tag registers. -/
def aesBusyHw : AesHw := ⟨true, false, 1, 2, 3, 4⟩

/-- A trivial CCM engine model for witnesses. -/
def ccmEngineZero : CcmEngine := fun _ _ _ _ input => input.map (fun _ => 0)

/-- A trivial CTR keystream for witnesses. -/
def ksConst : Nat → Nat → List Nat → Nat → Nat := fun _ _ _ i => (i + 5) % 256

theorem storeWords_below (r : List Nat) (m : Nat → Nat) (off a : Nat)
    (h : a < off) : storeWords m off r a = m a := by
  induction r generalizing m off with
  | nil => rfl
  | cons x xs ihr =>
    simp only [storeWords]
    rw [ihr _ _ (by omega)]
    simp [Function.update, Nat.ne_of_lt h]

theorem storeWords_get (data : List Nat) (mem : Nat → Nat) (offset : Nat) :
    ∀ i, i < data.length →
      storeWords mem offset data (offset + 4 * i) = data.getD i 0 := by
  induction data generalizing mem offset with
  | nil => intro i h; simp at h
  | cons d rest ih =>
    intro i hi
    cases i with
    | zero =>
      simp only [storeWords, Nat.mul_zero, Nat.add_zero, List.getD]
      rw [storeWords_below rest _ (offset + 4) offset (by omega)]
      simp [Function.update]
    | succ n =>
      simp only [storeWords]
      have harith : offset + 4 * (n + 1) = (offset + 4) + 4 * n := by ring
      rw [harith]
      have := ih (Function.update mem offset d) (offset + 4) n
        (by simpa using Nat.lt_of_succ_lt_succ hi)
      simpa using this

/-! ## Claim C8: PkaRam::write_slice -/

/-- Claim C8 counterexample.  The claim says write_slice returns "the next
8-byte-aligned offset following the written bytes".  Writing one word at
offset 0 covers bytes 0..4, whose next 8-byte-aligned offset is 8, but the
call returns 4 (the unaligned byte count written). -/
theorem c8_counterexample :
    (PkaRam.write_slice [1] 0 memZero).map Prod.snd = some 4 ∧ (4 : Nat) ≠ 8 :=
  ⟨rfl, by decide⟩

/-- Claim C8 (amended): with `offset + len*4 < region_size` (2 KiB) the
write succeeds, stores the i-th word at byte offset `offset + 4*i`, and
returns the byte count written, `4 * len` (not rounded to an 8-byte
boundary); with `offset + len*4 >= region_size` the assertion fails. -/
theorem c8_write_slice_spec (data : List Nat) (offset : Nat) (mem : Nat → Nat) :
    (offset + data.length * 4 < pkaRamSize →
      PkaRam.write_slice data offset mem =
        some (storeWords mem offset data, 4 * data.length) ∧
      ∀ i, i < data.length →
        storeWords mem offset data (offset + 4 * i) = data.getD i 0) ∧
    (pkaRamSize ≤ offset + data.length * 4 →
      PkaRam.write_slice data offset mem = none) := by
  constructor
  · intro h
    refine ⟨?_, storeWords_get data mem offset⟩
    simp [PkaRam.write_slice, h]
  · intro h
    simp [PkaRam.write_slice]
    omega

/-- Witness for C8 at a concrete input: writing two words at offset 0
succeeds, returns 8 bytes written, and stores the second word at byte
offset 4. -/
theorem c8_witness :
    PkaRam.write_slice [3, 5] 0 memZero = some (storeWords memZero 0 [3, 5], 8) ∧
    storeWords memZero 0 [3, 5] (0 + 4 * 1) = 5 := by
  have h := c8_write_slice_spec [3, 5] 0 memZero
  exact ⟨(h.1 (by decide)).1, (h.1 (by decide)).2 1 (by decide)⟩

/-! ## Claim C4: busy accelerator rejects every operation untouched -/

/-- Claim C4: with the run/busy flag set at entry, every big-number
operation (add, sub, add_sub, mul, modulo, inv_modulo) and both ECC
operations (ecc_mul, ecc_add) return PkaBusy immediately, with the PKA
RAM and every PKA register exactly as before the call. -/
theorem c4_busy_noninterference (s : PkaState) (hw : PkaHw)
    (num1 num2 a c b result scalar : List Nat) (curve : EccCurveInfo)
    (point point_a point_b : EcPoint) (h : s.run = true) :
    Crypto.add num1 num2 result s hw = (.err .PkaBusy, s) ∧
    Crypto.sub num1 num2 result s hw = (.err .PkaBusy, s) ∧
    Crypto.add_sub a c b result s hw = (.err .PkaBusy, s) ∧
    Crypto.mul num1 num2 result s hw = (.err .PkaBusy, s) ∧
    Crypto.modulo num1 num2 result s hw = (.err .PkaBusy, s) ∧
    Crypto.inv_modulo num1 num2 result s hw = (.err .PkaBusy, s) ∧
    Crypto.ecc_mul curve scalar point result s hw = (.err .PkaBusy, s) ∧
    Crypto.ecc_add curve point_a point_b result s hw = (.err .PkaBusy, s) := by
  refine ⟨?_, ?_, ?_, ?_, ?_, ?_, ?_, ?_⟩ <;>
    simp [Crypto.add, Crypto.sub, Crypto.add_sub, Crypto.mul, Crypto.modulo,
          Crypto.inv_modulo, Crypto.ecc_mul, Crypto.ecc_add, h]

/-- Witness for C4 on a concretely busy accelerator. -/
theorem c4_witness :
    Crypto.add [1] [2] [0, 0] pkaBusy (pkaHwWith 1 false 0) =
      (.err .PkaBusy, pkaBusy) ∧
    Crypto.ecc_mul testCurve [1] testPoint [0, 0] pkaBusy (pkaHwWith 1 false 0) =
      (.err .PkaBusy, pkaBusy) :=
  have h := c4_busy_noninterference pkaBusy (pkaHwWith 1 false 0)
    [1] [2] [1] [1] [1] [0, 0] [1] testCurve testPoint testPoint testPoint rfl
  ⟨h.1, h.2.2.2.2.2.2.1⟩

/-! ## Claim C5: inv_modulo status dispatch -/

/-- Claim C5 counterexample.  The claim says every undefined hardware
status code yields the PkaFailure error and the call never aborts; but on
shift status 1 the source hits the `unreachable!()` arm and panics. -/
theorem c5_counterexample :
    (Crypto.inv_modulo [1] [1] [0] pkaIdle (pkaHwWith 0 false 1)).1 = .fault ∧
    (Res.fault : Res (List Nat)) ≠ .err .PkaFailure :=
  ⟨rfl, by decide⟩

/-- Claim C5 (amended): inv_modulo returns Ok and writes `len(A)` result
words when the shift status reads 0, NoSolution when it reads 7 (no
modular inverse), PkaFailure when it reads 31, and panics (unreachable!)
on every other status code. -/
theorem c5_inv_modulo_status (num1 num2 result : List Nat) (s : PkaState)
    (hw : PkaHw) (hrun : s.run = false)
    (h1 : 0 + num1.length * 4 < pkaRamSize)
    (h2 : 0 + 4 * num1.length + num2.length * 4 < pkaRamSize) :
    (hw.shift = 0 → num1.length ≤ result.length →
      0 + 4 * num1.length + 4 * num2.length + num1.length * 4 < pkaRamSize →
      ∃ ws, ws.length = num1.length ∧
        (Crypto.inv_modulo num1 num2 result s hw).1 =
          .ok (ws ++ result.drop num1.length)) ∧
    (hw.shift = 7 →
      (Crypto.inv_modulo num1 num2 result s hw).1 = .err .NoSolution) ∧
    (hw.shift = 31 →
      (Crypto.inv_modulo num1 num2 result s hw).1 = .err .PkaFailure) ∧
    (hw.shift ≠ 0 → hw.shift ≠ 7 → hw.shift ≠ 31 →
      (Crypto.inv_modulo num1 num2 result s hw).1 = .fault) := by
  have hw1 : PkaRam.write_slice num1 0 s.ram =
      some (storeWords s.ram 0 num1, 4 * num1.length) := by
    unfold PkaRam.write_slice
    rw [if_pos h1]
  have hw2 : PkaRam.write_slice num2 (0 + 4 * num1.length)
      (storeWords s.ram 0 num1) =
      some (storeWords (storeWords s.ram 0 num1) (0 + 4 * num1.length) num2,
            4 * num2.length) := by
    unfold PkaRam.write_slice
    rw [if_pos h2]
  refine ⟨?_, ?_, ?_, ?_⟩
  · intro hs hlen hrd
    simp only [Crypto.inv_modulo, hrun, Bool.false_eq_true, if_false, hw1, hw2,
      hs, if_true, hlen, PkaRam.read_slice]
    rw [if_pos hrd]
    refine ⟨_, ?_, rfl⟩
    simp
  · intro hs
    simp only [Crypto.inv_modulo, hrun, Bool.false_eq_true, if_false, hw1, hw2, hs]
    simp
  · intro hs
    simp only [Crypto.inv_modulo, hrun, Bool.false_eq_true, if_false, hw1, hw2, hs]
    simp
  · intro hs0 hs7 hs31
    simp only [Crypto.inv_modulo, hrun, Bool.false_eq_true, if_false, hw1, hw2]
    simp [hs0, hs7, hs31]

/-- Witness for C5 at a concrete input: shift status 7 yields NoSolution. -/
theorem c5_witness :
    (Crypto.inv_modulo [1] [1] [0] pkaIdle (pkaHwWith 0 false 7)).1 =
      .err .NoSolution :=
  (c5_inv_modulo_status [1] [1] [0] pkaIdle (pkaHwWith 0 false 7) rfl
    (by decide) (by decide)).2.1 rfl

/-! ## Claim C6: the result-is-zero flag -/

/-- Claim C6 counterexample.  The claim says every big-number operation,
modulo included, reports result length 0 when the zero flag is set; but
modulo reports `num2.len() + 1` (here 2, not 0). -/
theorem c6_counterexample :
    (Crypto.modulo [5] [3] [0, 0] pkaIdle (pkaHwWith 0 true 0)).1 =
      .ok (2, [0, 0]) ∧ (2 : Nat) ≠ 0 :=
  ⟨rfl, by decide⟩

/-- Claim C6 (amended): when the hardware sets the result-is-zero flag,
add, sub, add_sub and mul zero-fill the caller's buffer and report length
0; modulo also zero-fills the buffer but reports its fixed output length
`num2.len() + 1`. -/
theorem c6_zero_flag (num1 num2 c result : List Nat) (s : PkaState) (hw : PkaHw)
    (hrun : s.run = false) (hz : hw.result_is_zero = true)
    (hb : (num1.length + num2.length + c.length) * 4 < pkaRamSize) :
    (Crypto.add num1 num2 result s hw).1 = .ok (0, List.replicate result.length 0) ∧
    (Crypto.sub num1 num2 result s hw).1 = .ok (0, List.replicate result.length 0) ∧
    (Crypto.add_sub num1 c num2 result s hw).1 =
      .ok (0, List.replicate result.length 0) ∧
    (Crypto.mul num1 num2 result s hw).1 = .ok (0, List.replicate result.length 0) ∧
    (Crypto.modulo num1 num2 result s hw).1 =
      .ok (num2.length + 1, List.replicate result.length 0) := by
  have hw1 : PkaRam.write_slice num1 0 s.ram =
      some (storeWords s.ram 0 num1, 4 * num1.length) := by
    unfold PkaRam.write_slice
    rw [if_pos (by omega)]
  have hw2 : PkaRam.write_slice num2 (4 * num1.length)
      (storeWords s.ram 0 num1) =
      some (storeWords (storeWords s.ram 0 num1) (4 * num1.length) num2,
            4 * num2.length) := by
    unfold PkaRam.write_slice
    rw [if_pos (by omega)]
  have hw3 : PkaRam.write_slice c (4 * num1.length + 4 * num2.length)
      (storeWords (storeWords s.ram 0 num1) (4 * num1.length) num2) =
      some (storeWords
        (storeWords (storeWords s.ram 0 num1) (4 * num1.length) num2)
        (4 * num1.length + 4 * num2.length) c, 4 * c.length) := by
    unfold PkaRam.write_slice
    rw [if_pos (by omega)]
  refine ⟨?_, ?_, ?_, ?_, ?_⟩ <;>
    simp [Crypto.add, Crypto.sub, Crypto.add_sub, Crypto.mul, Crypto.modulo,
          hrun, hw1, hw2, hw3, hz]

/-- Witness for C6 at a concrete input: add reports length 0 and modulo
reports length 2 on the same zero-flagged completion. -/
theorem c6_witness :
    (Crypto.add [5] [3] [0, 0] pkaIdle (pkaHwWith 0 true 0)).1 =
      .ok (0, List.replicate 2 0) ∧
    (Crypto.modulo [5] [3] [0, 0] pkaIdle (pkaHwWith 0 true 0)).1 =
      .ok (2, List.replicate 2 0) :=
  have h := c6_zero_flag [5] [3] [9] [0, 0] pkaIdle (pkaHwWith 0 true 0)
    rfl rfl (by decide)
  ⟨h.1, h.2.2.2.2⟩

/-! ## Claim C7: ecc_mul shift status validation -/

/-- The D-vector pointer register holds `offset >> 2` for the offset the
layout returns. -/
theorem ecc_mul_layout_dptr (curve : EccCurveInfo) (scalar : List Nat)
    (point : EcPoint) (s s1 : PkaState) (off : Nat)
    (h : Crypto.ecc_mul_layout curve scalar point s = some (s1, off)) :
    s1.dptr = off >>> 2 := by
  simp only [Crypto.ecc_mul_layout] at h
  repeat' split at h
  all_goals try exact Option.noConfusion h
  simp only [Option.some.injEq, Prod.mk.injEq] at h
  obtain ⟨h1, h2⟩ := h
  subst h2
  rw [← h1]

/-- Claim C7 counterexample.  The claim says a shift status of 0 is
treated as success with the resulting point read back; here the shift
status is 0 yet the call returns PkaFailure (the MSW address register
reads 0), so shift 0 alone does not imply success. -/
theorem c7_counterexample :
    (Crypto.ecc_mul testCurve [1] testPoint [0, 0] pkaIdle
        (pkaHwWith 0 false 0)).1 = .err .PkaFailure ∧
    (pkaHwWith 0 false 0).shift = 0 ∧
    ∀ out, (Res.err .PkaFailure : Res (List Nat)) ≠ .ok out := by
  refine ⟨rfl, rfl, ?_⟩
  intro out h
  cases h

/-- Claim C7 (amended): after completion, a shift status outside {0, 7}
yields PkaFailure; with shift 0 or 7 the call proceeds to the MSW check,
returning PkaFailure when the MSW address reads 0 or the zero flag is
set, and otherwise reading back the two result coordinates. -/
theorem c7_ecc_mul_shift (curve : EccCurveInfo) (scalar : List Nat)
    (point : EcPoint) (result : List Nat) (s : PkaState) (hw : PkaHw) (off : Nat)
    (hrun : s.run = false)
    (hlay : ∃ s1, Crypto.ecc_mul_layout curve scalar point s = some (s1, off)) :
    ((hw.shift ≠ 0 ∧ hw.shift ≠ 7) →
      (Crypto.ecc_mul curve scalar point result s hw).1 = .err .PkaFailure) ∧
    ((hw.shift = 0 ∨ hw.shift = 7) →
      ((hw.msw_address = 0 ∨ hw.result_is_zero = true) →
        (Crypto.ecc_mul curve scalar point result s hw).1 = .err .PkaFailure) ∧
      (hw.msw_address ≠ 0 → hw.result_is_zero = false →
        off >>> 2 ≤ hw.msw_address + 1 →
        2 * (hw.msw_address + 1 - (off >>> 2)) ≤ result.length →
        off + (hw.msw_address + 1 - (off >>> 2)) * 4 < pkaRamSize →
        off + 4 * ((hw.msw_address + 1 - (off >>> 2)) + 2 +
            (hw.msw_address + 1 - (off >>> 2)) % 2) +
          (hw.msw_address + 1 - (off >>> 2)) * 4 < pkaRamSize →
        ∃ x y, x.length = hw.msw_address + 1 - (off >>> 2) ∧
          y.length = x.length ∧
          (Crypto.ecc_mul curve scalar point result s hw).1 =
            .ok (x ++ y ++
              result.drop (2 * (hw.msw_address + 1 - (off >>> 2)))))) := by
  obtain ⟨s1, hl⟩ := hlay
  have hdp := ecc_mul_layout_dptr curve scalar point s s1 off hl
  constructor
  · intro hs
    simp [Crypto.ecc_mul, hrun, hl, hs.1, hs.2]
  · intro hs
    have hshift : ¬(hw.shift ≠ 0 ∧ hw.shift ≠ 7) := by
      rcases hs with h | h <;> simp [h]
    constructor
    · intro hmz
      simp only [Crypto.ecc_mul, hrun, Bool.false_eq_true, if_false, hl]
      rw [if_neg hshift]
      unfold eccReadResult
      rcases hmz with h | h <;> simp [h]
    · intro hm hz hle hres hr1 hr2
      simp only [Crypto.ecc_mul, hrun, Bool.false_eq_true, if_false, hl]
      rw [if_neg hshift]
      unfold eccReadResult
      rw [if_neg (by simp [hm, hz])]
      simp only [hdp]
      rw [if_neg (by omega)]
      rw [if_pos hres]
      unfold PkaRam.read_slice
      rw [if_pos hr1, if_pos hr2]
      exact ⟨_, _, by simp, by simp, rfl⟩

/-! ## Claim C9: the BigNum size invariant -/

theorem read_slice_len (len off : Nat) (mem : Nat → Nat) (ws : List Nat)
    (h : PkaRam.read_slice len off mem = some ws) : ws.length = len := by
  unfold PkaRam.read_slice at h
  split at h
  · simp only [Option.some.injEq] at h
    subst h
    simp
  · exact Option.noConfusion h

theorem inv_modulo_ok_len (num1 num2 result : List Nat) (s : PkaState)
    (hw : PkaHw) (out : List Nat) (s1 : PkaState)
    (h : Crypto.inv_modulo num1 num2 result s hw = (.ok out, s1)) :
    out.length = result.length := by
  simp only [Crypto.inv_modulo, PkaRam.write_slice] at h
  repeat' split at h
  all_goals simp only [Prod.mk.injEq] at h
  all_goals obtain ⟨ha, hb⟩ := h
  all_goals try exact Res.noConfusion ha
  injection ha with ha
  subst ha
  have hws := read_slice_len _ _ _ _ (by assumption)
  simp only [List.length_append, List.length_drop, hws]
  omega

theorem exp_ok_len (exponent modulus base result : List Nat) (s : PkaState)
    (hw : PkaHw) (out : List Nat) (s1 : PkaState)
    (h : Crypto.exp exponent modulus base result s hw = (.ok out, s1)) :
    out.length = result.length := by
  simp only [Crypto.exp, PkaRam.write_slice] at h
  repeat' split at h
  all_goals simp only [Prod.mk.injEq] at h
  all_goals obtain ⟨ha, hb⟩ := h
  all_goals try exact Res.noConfusion ha
  all_goals injection ha with ha
  all_goals subst ha
  all_goals try rfl
  have hws := read_slice_len _ _ _ _ (by assumption)
  simp only [List.length_append, List.length_drop, hws]
  omega

theorem set_size_ok (bn : BigNum) (n : Nat) (bn2 : BigNum)
    (h : BigNum.set_size bn n = some bn2) : bn2.size ≤ bn2.buffer.length := by
  unfold BigNum.set_size at h
  split at h
  next hc =>
    simp only [Option.some.injEq] at h
    subst h
    simpa using hc
  next => exact Option.noConfusion h

theorem inner_some (bn : BigNum) (l : List Nat) (h : BigNum.inner bn = some l) :
    bn.size ≤ bn.buffer.length ∧ l.length = bn.size := by
  unfold BigNum.inner at h
  split at h
  next hc =>
    simp only [Option.some.injEq] at h
    subst h
    exact ⟨hc, by simp [List.length_take, Nat.min_eq_left hc]⟩
  next => exact Option.noConfusion h

theorem bignum_add_ok_inv (a b : BigNum) (s : PkaState) (hw : PkaHw)
    (bn : BigNum) (s1 : PkaState) (h : BigNum.add a b s hw = (.ok bn, s1)) :
    bn.size ≤ bn.buffer.length := by
  simp only [BigNum.add] at h
  repeat' split at h
  all_goals simp only [Prod.mk.injEq] at h
  all_goals obtain ⟨ha, hb⟩ := h
  all_goals try exact Res.noConfusion ha
  injection ha with ha
  subst ha
  exact set_size_ok _ _ _ (by assumption)

theorem bignum_sub_ok_inv (a b : BigNum) (s : PkaState) (hw : PkaHw)
    (bn : BigNum) (s1 : PkaState) (h : BigNum.sub a b s hw = (.ok bn, s1)) :
    bn.size ≤ bn.buffer.length := by
  simp only [BigNum.sub] at h
  repeat' split at h
  all_goals simp only [Prod.mk.injEq] at h
  all_goals obtain ⟨ha, hb⟩ := h
  all_goals try exact Res.noConfusion ha
  injection ha with ha
  subst ha
  exact set_size_ok _ _ _ (by assumption)

theorem bignum_add_sub_ok_inv (a c b : BigNum) (s : PkaState) (hw : PkaHw)
    (bn : BigNum) (s1 : PkaState) (h : BigNum.add_sub a c b s hw = (.ok bn, s1)) :
    bn.size ≤ bn.buffer.length := by
  simp only [BigNum.add_sub] at h
  repeat' split at h
  all_goals simp only [Prod.mk.injEq] at h
  all_goals obtain ⟨ha, hb⟩ := h
  all_goals try exact Res.noConfusion ha
  injection ha with ha
  subst ha
  exact set_size_ok _ _ _ (by assumption)

theorem bignum_mul_ok_inv (a b : BigNum) (s : PkaState) (hw : PkaHw)
    (bn : BigNum) (s1 : PkaState) (h : BigNum.mul a b s hw = (.ok bn, s1)) :
    bn.size ≤ bn.buffer.length := by
  simp only [BigNum.mul] at h
  repeat' split at h
  all_goals simp only [Prod.mk.injEq] at h
  all_goals obtain ⟨ha, hb⟩ := h
  all_goals try exact Res.noConfusion ha
  injection ha with ha
  subst ha
  exact set_size_ok _ _ _ (by assumption)

theorem bignum_modulo_ok_inv (a b : BigNum) (s : PkaState) (hw : PkaHw)
    (bn : BigNum) (s1 : PkaState) (h : BigNum.modulo a b s hw = (.ok bn, s1)) :
    bn.size ≤ bn.buffer.length := by
  simp only [BigNum.modulo] at h
  repeat' split at h
  all_goals simp only [Prod.mk.injEq] at h
  all_goals obtain ⟨ha, hb⟩ := h
  all_goals try exact Res.noConfusion ha
  injection ha with ha
  subst ha
  exact set_size_ok _ _ _ (by assumption)

theorem bignum_inv_mod_ok_inv (a b : BigNum) (s : PkaState) (hw : PkaHw)
    (bn : BigNum) (s1 : PkaState) (h : BigNum.inv_mod a b s hw = (.ok bn, s1)) :
    bn.size ≤ bn.buffer.length := by
  simp only [BigNum.inv_mod] at h
  repeat' split at h
  all_goals simp only [Prod.mk.injEq] at h
  all_goals obtain ⟨ha, hb⟩ := h
  all_goals try exact Res.noConfusion ha
  injection ha with ha
  subst ha
  have hin := inner_some (BigNum.new a.buffer.length (b.size + 1)) _ (by assumption)
  have hlen := inv_modulo_ok_len _ _ _ _ _ _ _ (by assumption)
  simp only [BigNum.withInner, BigNum.new, List.length_replicate] at *
  simp only [List.length_append, List.length_drop, List.length_replicate]
  omega

theorem bignum_exp_ok_inv (a m base : BigNum) (s : PkaState) (hw : PkaHw)
    (bn : BigNum) (s1 : PkaState) (h : BigNum.exp a m base s hw = (.ok bn, s1)) :
    bn.size ≤ bn.buffer.length := by
  simp only [BigNum.exp] at h
  repeat' split at h
  all_goals simp only [Prod.mk.injEq] at h
  all_goals obtain ⟨ha, hb⟩ := h
  all_goals try exact Res.noConfusion ha
  injection ha with ha
  subst ha
  have hin := inner_some (BigNum.new a.buffer.length a.buffer.length) _ (by assumption)
  have hlen := exp_ok_len _ _ _ _ _ _ _ _ (by assumption)
  simp only [BigNum.withInner, BigNum.new, List.length_replicate] at *
  simp only [List.length_append, List.length_drop, List.length_replicate]
  omega

/-- Claim C9 counterexample.  BigNum::new is part of the public interface
and performs no capacity check: `BigNum::<4>::new(5)` yields a value whose
active size 5 exceeds the compile-time capacity 4. -/
theorem c9_counterexample :
    (BigNum.new 4 5).size = 5 ∧ (BigNum.new 4 5).buffer.length = 4 ∧
    ¬((BigNum.new 4 5).size ≤ (BigNum.new 4 5).buffer.length) := by
  refine ⟨rfl, by decide, by decide⟩

/-- Claim C9 (amended): set_size enforces the size-within-capacity
invariant by assertion, and every BigNum an arithmetic operation (add,
sub, add_sub, mul, modulo, inv_mod, exp) returns satisfies it; but
BigNum::new performs no such check, so values created directly through
new can violate it. -/
theorem c9_size_invariant :
    (∀ bn n bn2, BigNum.set_size bn n = some bn2 →
      bn2.size ≤ bn2.buffer.length) ∧
    (∀ a b s hw bn s1, BigNum.add a b s hw = (.ok bn, s1) →
      bn.size ≤ bn.buffer.length) ∧
    (∀ a b s hw bn s1, BigNum.sub a b s hw = (.ok bn, s1) →
      bn.size ≤ bn.buffer.length) ∧
    (∀ a c b s hw bn s1, BigNum.add_sub a c b s hw = (.ok bn, s1) →
      bn.size ≤ bn.buffer.length) ∧
    (∀ a b s hw bn s1, BigNum.mul a b s hw = (.ok bn, s1) →
      bn.size ≤ bn.buffer.length) ∧
    (∀ a b s hw bn s1, BigNum.modulo a b s hw = (.ok bn, s1) →
      bn.size ≤ bn.buffer.length) ∧
    (∀ a b s hw bn s1, BigNum.inv_mod a b s hw = (.ok bn, s1) →
      bn.size ≤ bn.buffer.length) ∧
    (∀ a m base s hw bn s1, BigNum.exp a m base s hw = (.ok bn, s1) →
      bn.size ≤ bn.buffer.length) :=
  ⟨fun bn n bn2 h => set_size_ok bn n bn2 h,
   fun a b s hw bn s1 h => bignum_add_ok_inv a b s hw bn s1 h,
   fun a b s hw bn s1 h => bignum_sub_ok_inv a b s hw bn s1 h,
   fun a c b s hw bn s1 h => bignum_add_sub_ok_inv a c b s hw bn s1 h,
   fun a b s hw bn s1 h => bignum_mul_ok_inv a b s hw bn s1 h,
   fun a b s hw bn s1 h => bignum_modulo_ok_inv a b s hw bn s1 h,
   fun a b s hw bn s1 h => bignum_inv_mod_ok_inv a b s hw bn s1 h,
   fun a m base s hw bn s1 h => bignum_exp_ok_inv a m base s hw bn s1 h⟩

/-- Witness for C9 at a concrete input: setting size 3 on a capacity-4
BigNum succeeds and satisfies the invariant. -/
theorem c9_witness :
    BigNum.set_size (BigNum.new 4 0) 3 = some ⟨List.replicate 4 0, 3⟩ ∧
    (3 : Nat) ≤ (List.replicate 4 (0 : Nat)).length :=
  ⟨rfl, c9_size_invariant.1 (BigNum.new 4 0) 3 ⟨List.replicate 4 0, 3⟩ rfl⟩

/-- Witness for C7 at a concrete input: shift status 7 with a valid MSW
address reads back the two coordinates of the resulting point. -/
theorem c7_witness :
    ∃ x y, x.length = 1 ∧ y.length = x.length ∧
      (Crypto.ecc_mul testCurve [1] testPoint [0, 0] pkaIdle
          (pkaHwWith 21 false 7)).1 = .ok (x ++ y ++ []) := by
  have h := (c7_ecc_mul_shift testCurve [1] testPoint [0, 0] pkaIdle
      (pkaHwWith 21 false 7) 85 rfl ⟨_, rfl⟩).2 (Or.inr rfl)
  exact h.2 (by decide) rfl (by decide) (by decide) (by decide) (by decide)

/-! ## Claim C2: CTR encrypt/decrypt round trip -/

theorem xorStream_length (ks : Nat → Nat) :
    ∀ i l, (xorStream ks i l).length = l.length := by
  intro i l
  induction l generalizing i with
  | nil => rfl
  | cons b bs ih => simp [xorStream, ih]

theorem xorStream_involution (ks : Nat → Nat) :
    ∀ i l, xorStream ks i (xorStream ks i l) = l := by
  intro i l
  induction l generalizing i with
  | nil => rfl
  | cons b bs ih => simp [xorStream, ih, Nat.xor_cancel_right]

/-- Claim C2: for every keystream model, key, nonce/counter split of the
16-byte IV and plaintext, with the engine idle and the key loaded
cleanly, ctr_encrypt followed by ctr_decrypt with the same parameters
recovers the plaintext byte for byte. -/
theorem c2_ctr_roundtrip (ks : Nat → Nat → List Nat → Nat → Nat) (key : Nat)
    (nonce ctr pt out1 out2 : List Nat)
    (h16 : nonce.length + ctr.length = 16)
    (ho1 : out1.length = pt.length) (ho2 : out2.length = pt.length) :
    ∃ ct, Crypto.ctr_encrypt ks false false key nonce ctr pt out1 = some ct ∧
      Crypto.ctr_decrypt ks false false key nonce ctr ct out2 = some pt := by
  have hivlen : (nonce ++ ctr).length = 16 := by simp [h16]
  by_cases hpt : pt.length = 0
  · have hpt0 : pt = [] := List.length_eq_zero.mp hpt
    have ho10 : out1 = [] := List.length_eq_zero.mp (by omega)
    have ho20 : out2 = [] := List.length_eq_zero.mp (by omega)
    subst hpt0
    subst ho10
    subst ho20
    exact ⟨[], by simp [Crypto.ctr_encrypt, Crypto.auth_crypt_ctr, h16, hivlen],
      by simp [Crypto.ctr_decrypt, Crypto.auth_crypt_ctr, h16, hivlen]⟩
  · have ho1z : ¬out1.length = 0 := by omega
    have ho2z : ¬out2.length = 0 := by omega
    have hol : (xorStream (ks key (((ctr.length >>> 2) % 256 + 255) % 256)
        (nonce ++ ctr)) 0 pt).length = pt.length := xorStream_length _ 0 pt
    refine ⟨xorStream (ks key (((ctr.length >>> 2) % 256 + 255) % 256)
        (nonce ++ ctr)) 0 pt, ?_, ?_⟩
    · simp only [Crypto.ctr_encrypt, Crypto.auth_crypt_ctr, aesCtrOutput,
        Bool.false_eq_true, if_false, if_pos h16, if_pos hivlen, hpt,
        if_neg hpt, if_neg ho1z]
      rw [List.take_of_length_le (by omega), List.drop_eq_nil_of_le (by omega)]
      simp
    · have hctl : (xorStream (ks key (((ctr.length >>> 2) % 256 + 255) % 256)
          (nonce ++ ctr)) 0 pt).length = 0 → False := by omega
      simp only [Crypto.ctr_decrypt, Crypto.auth_crypt_ctr, aesCtrOutput,
        Bool.false_eq_true, if_false, if_pos h16, if_pos hivlen,
        if_neg hctl, if_neg ho2z]
      rw [xorStream_involution]
      rw [List.take_of_length_le (by omega), List.drop_eq_nil_of_le (by omega)]
      simp

/-- Witness for C2 at a concrete input. -/
theorem c2_witness :
    ∃ ct, Crypto.ctr_encrypt ksConst false false 0 (List.replicate 12 1)
        [0, 0, 0, 9] [1, 2, 3] [0, 0, 0] = some ct ∧
      Crypto.ctr_decrypt ksConst false false 0 (List.replicate 12 1)
        [0, 0, 0, 9] ct [0, 0, 0] = some [1, 2, 3] :=
  c2_ctr_roundtrip ksConst 0 (List.replicate 12 1) [0, 0, 0, 9] [1, 2, 3]
    [0, 0, 0] [0, 0, 0] (by decide) (by decide) (by decide)

/-! ## Claim C3: the CCM IV layout and the auth-field encoding -/

/-- Claim C3: with length-field size L between 1 and 15 and a nonce of
exactly 15 - L bytes, the 16-byte CCM IV handed to auth_crypt is
`[L-1] ++ nonce ++ L zero bytes`, and the 3-bit CCM auth-field encoding
written to the control register is `(auth_field_size.max(2) - 2) >> 1`. -/
theorem c3_ccm_iv_layout (info : AesCcmInfo) (nonce : List Nat)
    (h1 : 1 ≤ info.len_field_size) (h2 : info.len_field_size ≤ 15)
    (h3 : nonce.length = 15 - info.len_field_size) :
    Crypto.ccm_iv info nonce =
      some ((info.len_field_size - 1) ::
        (nonce ++ List.replicate info.len_field_size 0)) ∧
    (Crypto.ccm_encrypt_ctrl info).ccm_m =
      (max info.auth_field_size 2 - 2) >>> 1 := by
  refine ⟨?_, rfl⟩
  have hv : (info.len_field_size % 256 + 255) % 256 = info.len_field_size - 1 := by
    omega
  have hrep : (List.replicate 16 (0 : Nat)) = 0 :: List.replicate 15 0 := rfl
  simp only [Crypto.ccm_iv, ccmNonceLen]
  rw [if_pos h2, hrep, List.set_cons_zero, hv]
  have hslice : setSlice ((info.len_field_size - 1) :: List.replicate 15 0) 1
      (1 + (15 - info.len_field_size)) nonce =
      some ([info.len_field_size - 1] ++ nonce ++
        List.replicate info.len_field_size 0) := by
    unfold setSlice
    rw [if_pos (by refine ⟨by omega, by simp; omega, by omega⟩)]
    congr 1
    have hd : ((info.len_field_size - 1) :: List.replicate 15 0).drop
        (1 + (15 - info.len_field_size)) =
        List.replicate info.len_field_size 0 := by
      have harith : (1 + (15 - info.len_field_size)) =
          (15 - info.len_field_size) + 1 := by omega
      rw [harith, List.drop_succ_cons, List.drop_replicate]
      congr 1
      omega
    rw [hd]
    rfl
  simp only [hslice]
  unfold fillZeroFrom
  have hlen16 : ([info.len_field_size - 1] ++ nonce ++
      List.replicate info.len_field_size 0).length = 16 := by
    simp
    omega
  rw [hlen16]
  have htake : ([info.len_field_size - 1] ++ nonce ++
      List.replicate info.len_field_size 0).take (16 - info.len_field_size) =
      [info.len_field_size - 1] ++ nonce := by
    rw [List.take_left']
    simp
    omega
  rw [htake]
  have hz : 16 - (16 - info.len_field_size) = info.len_field_size := by omega
  rw [hz]
  simp

/-- Witness for C3 at a concrete input: L = 2, an 8-byte MIC and a
13-byte nonce. -/
theorem c3_witness :
    Crypto.ccm_iv ⟨0, 2, 8, none⟩ (List.replicate 13 7) =
      some (1 :: (List.replicate 13 7 ++ List.replicate 2 0)) ∧
    (Crypto.ccm_encrypt_ctrl ⟨0, 2, 8, none⟩).ccm_m = 3 :=
  c3_ccm_iv_layout ⟨0, 2, 8, none⟩ (List.replicate 13 7)
    (by decide) (by decide) (by decide)

/-! ## Claim C10: ccm_encrypt always overwrites the tag buffer -/

/-- Claim C10: ccm_encrypt reads the four hardware tag-output registers
into the 16-byte tag buffer unconditionally — also on the path where the
AES engine was busy at entry and ccm_crypt performed no encryption, so
the tag output is never left unchanged on that error path. -/
theorem c10_tag_unconditional (enc : CcmEngine) (hw : AesHw) (info : AesCcmInfo)
    (nonce data_in data_out tag : List Nat)
    (hbusy : hw.busy = true) (htag : tag.length = 16) :
    Crypto.ccm_encrypt enc hw info nonce data_in data_out tag =
      some (data_out, wordToBytesLE hw.tag0 ++ wordToBytesLE hw.tag1 ++
        wordToBytesLE hw.tag2 ++ wordToBytesLE hw.tag3) := by
  simp [Crypto.ccm_encrypt, Crypto.ccm_crypt, Crypto.read_tag, hbusy, htag]

/-- Witness for C10 at a concrete input: a busy engine, a 16-byte tag
buffer full of 9s, and tag registers 1, 2, 3, 4; the returned tag is the
register serialisation and the input tag bytes are gone. -/
theorem c10_witness :
    Crypto.ccm_encrypt ccmEngineZero aesBusyHw ⟨0, 2, 8, none⟩
        (List.replicate 13 7) [1] [0] (List.replicate 16 9) =
      some ([0], wordToBytesLE 1 ++ wordToBytesLE 2 ++
        wordToBytesLE 3 ++ wordToBytesLE 4) :=
  c10_tag_unconditional ccmEngineZero aesBusyHw ⟨0, 2, 8, none⟩
    (List.replicate 13 7) [1] [0] (List.replicate 16 9) rfl (by decide)

/-! ## Claim C1: the sha256 driver computes the FIPS 180-4 digest -/

theorem mdSuffix_congr (a b B1 B2 : Nat) (ha : a % 64 = b % 64)
    (hb : B1 % 18446744073709551616 = B2 % 18446744073709551616) :
    mdSuffix a B1 = mdSuffix b B2 := by
  unfold mdSuffix be64
  rw [ha, hb]

theorem toBlocksAux_fuel : ∀ f1 f2 xs, xs.length ≤ f1 → xs.length ≤ f2 →
    toBlocksAux f1 xs = toBlocksAux f2 xs := by
  intro f1
  induction f1 with
  | zero =>
    intro f2 xs h1 h2
    have hx : xs = [] := List.eq_nil_of_length_eq_zero (by omega)
    subst hx
    cases f2 <;> simp [toBlocksAux]
  | succ f1 ih =>
    intro f2 xs h1 h2
    by_cases hx : xs = []
    · subst hx
      cases f2 <;> simp [toBlocksAux]
    · have hpos : 0 < xs.length := List.length_pos.mpr hx
      cases f2 with
      | zero => omega
      | succ f2 =>
        simp only [toBlocksAux, if_neg hx]
        congr 1
        exact ih f2 (xs.drop 64) (by simp [List.length_drop]; omega)
          (by simp [List.length_drop]; omega)

theorem hashBlocks_cons (h blk rest : List Nat) (hb : blk.length = 64) :
    hashBlocks h (blk ++ rest) =
      hashBlocks (compress h (bytesToWords blk)) rest := by
  have hne : blk ++ rest ≠ [] := by
    intro hcon
    rw [List.append_eq_nil] at hcon
    have := hcon.1
    subst this
    simp at hb
  have hlen : (blk ++ rest).length = 63 + rest.length + 1 := by
    simp [List.length_append]
    omega
  unfold hashBlocks toBlocks
  rw [hlen]
  rw [toBlocksAux, if_neg hne, List.take_left' hb, List.drop_left' hb]
  rw [toBlocksAux_fuel (63 + rest.length) rest.length rest (by omega) (by omega)]
  rfl

theorem sha256Loop_empty (fuel : Nat) (st : Sha256State) :
    sha256Loop fuel st [] = some (st, []) := by
  cases fuel <;> simp [sha256Loop]

theorem finalize_state (st : Sha256State) (hnd : st.new_digest = false) :
    (Crypto.finalize st).state =
      hashBlocks st.state (st.buf.take st.curlen ++ mdSuffix st.curlen
        ((st.length + (st.curlen <<< 3) % 4294967296) % 18446744073709551616)) := by
  simp [Crypto.finalize, Crypto.resume_hash, hwHash, hnd]

theorem finalize_state_new (st : Sha256State) (hnd : st.new_digest = true) :
    (Crypto.finalize st).state =
      hashBlocks sha256H0 (st.buf.take st.curlen ++ mdSuffix st.curlen
        ((st.length + (st.curlen <<< 3) % 4294967296) % 18446744073709551616)) := by
  simp [Crypto.finalize, Crypto.new_hash, hwHash, hnd]

theorem sha256Loop_spec (fuel : Nat) :
    ∀ (st : Sha256State) (rest : List Nat),
      rest.length ≤ fuel →
      st.new_digest = false → st.final_digest = false →
      st.curlen = 0 → st.buf.length = 64 →
      st.length < 18446744073709551616 →
      ∃ st2 rest2, sha256Loop fuel st rest = some (st2, rest2) ∧
        (Crypto.finalize st2).state =
          hashBlocks st.state (rest ++ mdSuffix rest.length
            ((st.length + 8 * rest.length) % 18446744073709551616)) := by
  induction fuel with
  | zero =>
    intro st rest hfuel hnd hfd hcl hbuf hlt
    have hr : rest = [] := List.eq_nil_of_length_eq_zero (by omega)
    subst hr
    refine ⟨st, [], sha256Loop_empty 0 st, ?_⟩
    rw [finalize_state st hnd, hcl]
    simp only [List.take_zero, List.nil_append, List.length_nil]
    exact congrArg (hashBlocks st.state) (mdSuffix_congr _ _ _ _ (by omega) (by omega))
  | succ fuel ih =>
    intro st rest hfuel hnd hfd hcl hbuf hlt
    by_cases hr0 : rest.length = 0
    · have hr : rest = [] := List.eq_nil_of_length_eq_zero hr0
      subst hr
      refine ⟨st, [], sha256Loop_empty _ st, ?_⟩
      rw [finalize_state st hnd, hcl]
      simp only [List.take_zero, List.nil_append, List.length_nil]
      exact congrArg (hashBlocks st.state) (mdSuffix_congr _ _ _ _ (by omega) (by omega))
    · rw [sha256Loop]
      rw [if_pos (by exact ⟨by omega, hnd⟩)]
      by_cases hbig : 64 < rest.length
      · rw [if_pos ⟨hcl, hbig⟩]
        simp only [Crypto.resume_hash, hwHash, hfd, Bool.false_eq_true, if_false]
        obtain ⟨st2, rest2, hloop, hfin⟩ := ih
          ⟨(st.length + 64 <<< 3) % 18446744073709551616,
           compress st.state (bytesToWords ((rest.take 64).take 64)),
           st.curlen, rest.take 64, st.new_digest, false⟩
          (rest.drop 64)
          (by simp only [List.length_drop]; omega)
          (by simpa using hnd) rfl (by simpa using hcl)
          (by simp only [List.length_take]; omega)
          (by exact Nat.mod_lt _ (by norm_num))
        have e1 : (rest.take 64).take 64 = rest.take 64 := by
          rw [List.take_take]
          norm_num
        have e2 : mdSuffix (rest.drop 64).length
            (((st.length + 64 <<< 3) % 18446744073709551616 +
              8 * (rest.drop 64).length) % 18446744073709551616) =
            mdSuffix rest.length
              ((st.length + 8 * rest.length) % 18446744073709551616) := by
          apply mdSuffix_congr <;> simp only [List.length_drop] <;> omega
        rw [e1] at hfin
        rw [e2] at hfin
        refine ⟨st2, rest2, hloop, ?_⟩
        rw [hfin]
        have e3 : rest ++ mdSuffix rest.length
            ((st.length + 8 * rest.length) % 18446744073709551616) =
            rest.take 64 ++ (rest.drop 64 ++ mdSuffix rest.length
              ((st.length + 8 * rest.length) % 18446744073709551616)) := by
          rw [← List.append_assoc, List.take_append_drop]
        rw [e3,
          hashBlocks_cons st.state (rest.take 64) _
            (by simp only [List.length_take]; omega)]
      · rw [if_neg (fun hh => hbig hh.2)]
        rw [hcl]
        simp only [Nat.sub_zero]
        have hmin : min rest.length 64 = rest.length := by omega
        rw [hmin, List.take_length]
        have hset : setSlice st.buf 0 rest.length rest =
            some (st.buf.take 0 ++ rest ++ st.buf.drop rest.length) := by
          unfold setSlice
          rw [if_pos ⟨by omega, by omega, by omega⟩]
        simp only [hset, List.drop_length]
        rw [if_neg (by simp)]
        rw [sha256Loop_empty]
        refine ⟨_, [], rfl, ?_⟩
        rw [finalize_state _ (by simpa using hnd)]
        simp only [List.take_zero, List.nil_append, Nat.zero_add]
        rw [List.take_left' rfl]
        refine congrArg (hashBlocks st.state) ?_
        refine congrArg (fun sfx => rest ++ sfx) ?_
        exact mdSuffix_congr _ _ _ _ (by omega) (by omega)

/-- Claim C1: with the hash unit idle at entry, the driver computes the
standard FIPS 180-4 SHA-256 digest of every non-empty byte string,
whatever its length. -/
theorem c1_sha256_correct (data : List Nat) (hne : data ≠ []) :
    Crypto.sha256 false data 32 = .digest (sha256spec data) := by
  have hlen : 0 < data.length := List.length_pos.mpr hne
  simp only [Crypto.sha256]
  rw [if_neg (by omega), if_neg (by norm_num), if_neg (by simp)]
  by_cases hbig : 64 < data.length
  · have hprime : sha256Prime
        ⟨0, [0, 0, 0, 0, 0, 0, 0, 0], 0, List.replicate 64 0, true, false⟩ data =
        some (⟨(0 + 64 <<< 3) % 18446744073709551616,
          compress sha256H0 (bytesToWords ((data.take 64).take 64)),
          0, data.take 64, false, false⟩, data.drop 64) := by
      unfold sha256Prime
      rw [if_pos ⟨hlen, rfl⟩]
      rw [if_pos ⟨rfl, hbig⟩]
      simp only [Crypto.new_hash, hwHash, Bool.false_eq_true, if_false]
    simp only [hprime]
    obtain ⟨st2, rest2, hloop, hfin⟩ := sha256Loop_spec
      ((data.drop 64).length + 1)
      ⟨(0 + 64 <<< 3) % 18446744073709551616,
        compress sha256H0 (bytesToWords ((data.take 64).take 64)),
        0, data.take 64, false, false⟩
      (data.drop 64) (by omega) rfl rfl rfl
      (by simp only [List.length_take]; omega)
      (Nat.mod_lt _ (by norm_num))
    simp only [hloop]
    dsimp only at hfin
    have e1 : (data.take 64).take 64 = data.take 64 := by
      rw [List.take_take]
      norm_num
    have e2 : mdSuffix (data.drop 64).length
        (((0 + 64 <<< 3) % 18446744073709551616 +
          8 * (data.drop 64).length) % 18446744073709551616) =
        mdSuffix data.length (8 * data.length) := by
      apply mdSuffix_congr <;> simp only [List.length_drop] <;> omega
    rw [e1] at hfin
    rw [e2] at hfin
    rw [hfin]
    simp only [sha256spec]
    have e3 : data ++ mdSuffix data.length (8 * data.length) =
        data.take 64 ++ (data.drop 64 ++ mdSuffix data.length (8 * data.length)) := by
      rw [← List.append_assoc, List.take_append_drop]
    rw [e3, hashBlocks_cons sha256H0 (data.take 64) _
      (by simp only [List.length_take]; omega)]
  · have hset : setSlice (List.replicate 64 0) 0 data.length data =
        some (data ++ (List.replicate 64 0).drop data.length) := by
      unfold setSlice
      rw [if_pos ⟨by omega, by simpa using (by omega : data.length ≤ 64), by omega⟩]
      simp
    have hprime : sha256Prime
        ⟨0, [0, 0, 0, 0, 0, 0, 0, 0], 0, List.replicate 64 0, true, false⟩ data =
        some (⟨0, [0, 0, 0, 0, 0, 0, 0, 0], 0 + data.length,
          data ++ (List.replicate 64 0).drop data.length, true, false⟩, []) := by
      unfold sha256Prime
      rw [if_pos ⟨hlen, rfl⟩]
      rw [if_neg (fun hh => hbig hh.2)]
      dsimp only
      simp only [Nat.sub_zero]
      have hmin : min data.length 64 = data.length := by omega
      rw [hmin, List.take_length]
      simp only [hset, List.drop_length]
      rw [if_neg (by simp)]
    simp only [hprime]
    rw [sha256Loop_empty]
    dsimp only
    rw [finalize_state_new
      ⟨0, [0, 0, 0, 0, 0, 0, 0, 0], 0 + data.length,
        data ++ (List.replicate 64 0).drop data.length, true, false⟩ rfl]
    dsimp only
    simp only [Nat.zero_add]
    rw [List.take_left' rfl]
    have e2 : mdSuffix data.length
        (data.length <<< 3 % 4294967296 % 18446744073709551616) =
        mdSuffix data.length (8 * data.length) := by
      apply mdSuffix_congr
      · rfl
      · omega
    rw [e2]
    simp only [sha256spec]

/-- Witness for C1 at a concrete input: the driver digest of "abc". -/
theorem c1_witness :
    Crypto.sha256 false [0x61, 0x62, 0x63] 32 =
      .digest (sha256spec [0x61, 0x62, 0x63]) :=
  c1_sha256_correct [0x61, 0x62, 0x63] (by decide)

/-- Validation of the FIPS model itself on the standard single-block test
vector: SHA-256("abc"). -/
theorem sha256spec_abc :
    sha256spec [0x61, 0x62, 0x63] =
      [0xba, 0x78, 0x16, 0xbf, 0x8f, 0x01, 0xcf, 0xea, 0x41, 0x41, 0x40, 0xde,
       0x5d, 0xae, 0x22, 0x23, 0xb0, 0x03, 0x61, 0xa3, 0x96, 0x17, 0x7a, 0x9c,
       0xb4, 0x10, 0xff, 0x61, 0xf2, 0x00, 0x15, 0xad] := by
  decide

/-- Validation of the FIPS model on the standard 56-byte two-block test
vector. -/
theorem sha256spec_two_block :
    sha256spec
      [0x61, 0x62, 0x63, 0x64, 0x62, 0x63, 0x64, 0x65, 0x63, 0x64, 0x65, 0x66,
       0x64, 0x65, 0x66, 0x67, 0x65, 0x66, 0x67, 0x68, 0x66, 0x67, 0x68, 0x69,
       0x67, 0x68, 0x69, 0x6a, 0x68, 0x69, 0x6a, 0x6b, 0x69, 0x6a, 0x6b, 0x6c,
       0x6a, 0x6b, 0x6c, 0x6d, 0x6b, 0x6c, 0x6d, 0x6e, 0x6c, 0x6d, 0x6e, 0x6f,
       0x6d, 0x6e, 0x6f, 0x70, 0x6e, 0x6f, 0x70, 0x71] =
      [0x24, 0x8d, 0x6a, 0x61, 0xd2, 0x06, 0x38, 0xb8, 0xe5, 0xc0, 0x26, 0x93,
       0x0c, 0x3e, 0x60, 0x39, 0xa3, 0x3c, 0xe4, 0x59, 0x64, 0xff, 0x21, 0x67,
       0xf6, 0xec, 0xed, 0xd4, 0x19, 0xdb, 0x06, 0xc1] := by
  decide
